import Mathlib

/-!
Verification of the SimpleLang recursive-descent parser
(`src/token.h`, `src/expr.h`, `src/parser.cpp`).

The parser is embedded shallowly: the token and AST data model become
inductive types, the parser's mutable cursor becomes an explicit
`ParserState`, every C++ method becomes a function returning
`Except PErr`, and raw vector indexing (`tokens[current]`) becomes an
`Option`-checked access whose failure is the distinguished error
`PErr.OutOfBounds` (a C++ out-of-bounds read).  The mutually recursive
grammar procedures take a fuel argument; `PErr.OutOfFuel` marks fuel
exhaustion, an artifact of the embedding (the C++ code just recurses).
-/

/-- `TokenType` from `src/token.h` (the file is textually corrupted in the
repository; the list below is the readable enumeration, with `True` restored:
`parser.cpp` uses `TokenType::True`, so the original enum must contain it). -/
inductive TokenType where
  | LeftParen | RightParen | LeftBrace | RightBrace
  | Comma | Dot | Minus | Plus | Semicolon | Slash | Star
  | Bang | BangEqual
  | Equal | EqualEqual
  | Greater | GreaterEqual
  | Less | LessEqual
  | Identifier | String | Number
  | And | Break | Class | Continue | Do | Else | ElseIf
  | False | True | Fun | For | If | In | Let | Nil | Or
  | Print | Return | Super | Static | Struct | Switch
  | Eof | Unknown
  deriving DecidableEq, Repr

/-- The scalar payload a token or literal carries (`std::any literal` in
`src/token.h`: the lexer stores a number, string or boolean; `nullptr`
by default, and `LiteralExpr` also stores plain `true`/`false`). -/
inductive LitValue where
  | num (n : Int)
  | str (s : String)
  | bool (b : Bool)
  | null
  deriving DecidableEq, Repr

/-- `Token` from `src/token.h`: kind, lexeme, literal payload. -/
structure Token where
  type : TokenType
  lexeme : String
  literal : LitValue
  deriving DecidableEq, Repr

/-- `Expr` from `src/expr.h`: the closed set of expression variants. -/
inductive Expr where
  | LiteralExpr (value : LitValue)
  | UnaryExpr (op : Token) (right : Expr)
  | BinaryExpr (left : Expr) (op : Token) (right : Expr)
  | VariableExpr (name : Token)
  deriving DecidableEq, Repr

/-- `Stmt` from `src/expr.h`: the closed set of statement variants.
`IfStmt`'s optional else branch models the `other_stmt_given` flag plus
the possibly-empty `otherwise` pointer; `VarStmt`'s optional initializer
models its possibly-null `initializer` pointer. -/
inductive Stmt where
  | ExpressionStmt (expression : Expr)
  | PrintStmt (expression : Expr)
  | VarStmt (name : Token) (initializer : Option Expr)
  | IfStmt (cond : Expr) (thenBranch : Stmt) (otherwise : Option Stmt)
  | BlockStmt (stmts : List Stmt)

/-- The parser's state: the (read-only) token sequence and the cursor
`current` (`size_t current` in `parser.h`, starting at 0). -/
structure ParserState where
  tokens : List Token
  current : Nat
  deriving DecidableEq, Repr

/-- Failure modes of the embedded parser.  `SyntaxError` is the C++
`std::runtime_error` thrown by `consume` and `primary`; `OutOfBounds` is an
unchecked `tokens[i]` read outside the vector (undefined behaviour in C++);
`OutOfFuel` is the embedding's fuel running out. -/
inductive PErr where
  | SyntaxError (msg : String)
  | OutOfBounds
  | OutOfFuel
  deriving DecidableEq, Repr

/-- `Parser::peek`: `return tokens[current];` — an unchecked read. -/
def peek (s : ParserState) : Except PErr Token :=
  match s.tokens[s.current]? with
  | some t => .ok t
  | none => .error .OutOfBounds

/-- `Parser::previous`: `return tokens[current - 1];` — an unchecked read;
`current` is unsigned in C++, so at `current = 0` the index wraps around and
the read is out of bounds. -/
def previous (s : ParserState) : Except PErr Token :=
  if s.current = 0 then .error .OutOfBounds
  else
    match s.tokens[s.current - 1]? with
    | some t => .ok t
    | none => .error .OutOfBounds

/-- `Parser::atEnd`: `current >= tokens.size() || peek().type == Eof`
(short-circuit: `peek` only runs when `current` is in bounds). -/
def atEnd (s : ParserState) : Except PErr Bool :=
  if s.tokens.length ≤ s.current then .ok true
  else do
    let t ← peek s
    .ok (decide (t.type = TokenType.Eof))

/-- `Parser::advance`: `if (!atEnd()) current++; return previous();`. -/
def advance (s : ParserState) : Except PErr (Token × ParserState) := do
  let e ← atEnd s
  let s' := if e then s else { s with current := s.current + 1 }
  let t ← previous s'
  .ok (t, s')

/-- `Parser::check`: `!atEnd() && peek().type == type` (short-circuit). -/
def check (s : ParserState) (t : TokenType) : Except PErr Bool := do
  let e ← atEnd s
  if e then .ok false
  else do
    let tk ← peek s
    .ok (decide (tk.type = t))

/-- `Parser::match` (`match` is a Lean keyword, hence `matchT`):
`if (current < tokens.size() && check(type)) { advance(); return true; }
return false;`. -/
def matchT (s : ParserState) (t : TokenType) : Except PErr (Bool × ParserState) := do
  if s.current < s.tokens.length then
    let c ← check s t
    if c then do
      let (_, s') ← advance s
      .ok (true, s')
    else .ok (false, s)
  else .ok (false, s)

/-- `Parser::consume`: `if (!match(type)) throw std::runtime_error(err);`. -/
def consume (s : ParserState) (t : TokenType) (err : String) :
    Except PErr ParserState := do
  let (m, s') ← matchT s t
  if m then .ok s' else .error (.SyntaxError err)

mutual

/-- The `while (!atEnd()) statements.push_back(statement());` loop of
`Parser::parse`, with the vector as an accumulator (reversed at the end). -/
def parseLoop : Nat → ParserState → List Stmt → Except PErr (List Stmt × ParserState)
  | 0, _, _ => .error .OutOfFuel
  | fuel + 1, s, acc => do
    let e ← atEnd s
    if e then .ok (acc.reverse, s)
    else do
      let (st, s') ← statement fuel s
      parseLoop fuel s' (st :: acc)

/-- `Parser::statement`. -/
def statement : Nat → ParserState → Except PErr (Stmt × ParserState)
  | 0, _ => .error .OutOfFuel
  | fuel + 1, s => do
    let (m1, s1) ← matchT s TokenType.Print
    if m1 then printStatement fuel s1
    else do
      let (m2, s2) ← matchT s1 TokenType.If
      if m2 then IfStatement fuel s2
      else do
        let (m3, s3) ← matchT s2 TokenType.LeftBrace
        if m3 then blockStmt fuel s3
        else expressionStatement fuel s3

/-- `Parser::blockStmt`. -/
def blockStmt : Nat → ParserState → Except PErr (Stmt × ParserState)
  | 0, _ => .error .OutOfFuel
  | fuel + 1, s => do
    let (stmts, s') ← blockLoop fuel s []
    let s'' ← consume s' TokenType.RightBrace "Expect \x27\x7d\x27 after block."
    .ok (Stmt.BlockStmt stmts, s'')

/-- The `while (!check(RightBrace))` loop of `Parser::blockStmt`. -/
def blockLoop : Nat → ParserState → List Stmt → Except PErr (List Stmt × ParserState)
  | 0, _, _ => .error .OutOfFuel
  | fuel + 1, s, acc => do
    let c ← check s TokenType.RightBrace
    if c then .ok (acc.reverse, s)
    else do
      let (st, s') ← statement fuel s
      blockLoop fuel s' (st :: acc)

/-- `Parser::printStatement`. -/
def printStatement : Nat → ParserState → Except PErr (Stmt × ParserState)
  | 0, _ => .error .OutOfFuel
  | fuel + 1, s => do
    let (value, s') ← expr fuel s
    let s'' ← consume s' TokenType.Semicolon "Expect \x27;\x27 after value.\x27"
    .ok (Stmt.PrintStmt value, s'')

/-- `Parser::IfStatement`. -/
def IfStatement : Nat → ParserState → Except PErr (Stmt × ParserState)
  | 0, _ => .error .OutOfFuel
  | fuel + 1, s => do
    let (cond, s1) ← expr fuel s
    let (thenS, s2) ← statement fuel s1
    let (m, s3) ← matchT s2 TokenType.Else
    if m then do
      let (otherS, s4) ← statement fuel s3
      .ok (Stmt.IfStmt cond thenS (some otherS), s4)
    else .ok (Stmt.IfStmt cond thenS none, s3)

/-- `Parser::expressionStatement`. -/
def expressionStatement : Nat → ParserState → Except PErr (Stmt × ParserState)
  | 0, _ => .error .OutOfFuel
  | fuel + 1, s => do
    let (expression, s') ← expr fuel s
    let s'' ← consume s' TokenType.Semicolon "Expect \x27;\x27 afer expression"
    .ok (Stmt.ExpressionStmt expression, s'')

/-- `Parser::expr`: `return equality();`. -/
def expr : Nat → ParserState → Except PErr (Expr × ParserState)
  | 0, _ => .error .OutOfFuel
  | fuel + 1, s => equality fuel s

/-- `Parser::equality`. -/
def equality : Nat → ParserState → Except PErr (Expr × ParserState)
  | 0, _ => .error .OutOfFuel
  | fuel + 1, s => do
    let (left, s') ← comparison fuel s
    equalityLoop fuel left s'

/-- The `while (match(BangEqual) || match(EqualEqual))` loop of
`Parser::equality` (the `||` short-circuits, as in C++). -/
def equalityLoop : Nat → Expr → ParserState → Except PErr (Expr × ParserState)
  | 0, _, _ => .error .OutOfFuel
  | fuel + 1, left, s => do
    let (m1, s1) ← matchT s TokenType.BangEqual
    let (m, s2) ← if m1 then pure (true, s1) else matchT s1 TokenType.EqualEqual
    if m then do
      let op ← previous s2
      let (right, s3) ← comparison fuel s2
      equalityLoop fuel (Expr.BinaryExpr left op right) s3
    else .ok (left, s2)

/-- `Parser::comparison`. -/
def comparison : Nat → ParserState → Except PErr (Expr × ParserState)
  | 0, _ => .error .OutOfFuel
  | fuel + 1, s => do
    let (left, s') ← term fuel s
    comparisonLoop fuel left s'

/-- The `while (match(Greater) || match(GreaterEqual) || match(Less) ||
match(LessEqual))` loop of `Parser::comparison`. -/
def comparisonLoop : Nat → Expr → ParserState → Except PErr (Expr × ParserState)
  | 0, _, _ => .error .OutOfFuel
  | fuel + 1, left, s => do
    let (m1, s1) ← matchT s TokenType.Greater
    let (m2, s2) ← if m1 then pure (true, s1) else matchT s1 TokenType.GreaterEqual
    let (m3, s3) ← if m2 then pure (true, s2) else matchT s2 TokenType.Less
    let (m, s4) ← if m3 then pure (true, s3) else matchT s3 TokenType.LessEqual
    if m then do
      let op ← previous s4
      let (right, s5) ← term fuel s4
      comparisonLoop fuel (Expr.BinaryExpr left op right) s5
    else .ok (left, s4)

/-- `Parser::term`. -/
def term : Nat → ParserState → Except PErr (Expr × ParserState)
  | 0, _ => .error .OutOfFuel
  | fuel + 1, s => do
    let (left, s') ← factor fuel s
    termLoop fuel left s'

/-- The `while (match(Plus) || match(Minus))` loop of `Parser::term`. -/
def termLoop : Nat → Expr → ParserState → Except PErr (Expr × ParserState)
  | 0, _, _ => .error .OutOfFuel
  | fuel + 1, left, s => do
    let (m1, s1) ← matchT s TokenType.Plus
    let (m, s2) ← if m1 then pure (true, s1) else matchT s1 TokenType.Minus
    if m then do
      let op ← previous s2
      let (right, s3) ← factor fuel s2
      termLoop fuel (Expr.BinaryExpr left op right) s3
    else .ok (left, s2)

/-- `Parser::factor`. -/
def factor : Nat → ParserState → Except PErr (Expr × ParserState)
  | 0, _ => .error .OutOfFuel
  | fuel + 1, s => do
    let (left, s') ← unary fuel s
    factorLoop fuel left s'

/-- The `while (match(Star) || match(Slash))` loop of `Parser::factor`. -/
def factorLoop : Nat → Expr → ParserState → Except PErr (Expr × ParserState)
  | 0, _, _ => .error .OutOfFuel
  | fuel + 1, left, s => do
    let (m1, s1) ← matchT s TokenType.Star
    let (m, s2) ← if m1 then pure (true, s1) else matchT s1 TokenType.Slash
    if m then do
      let op ← previous s2
      let (right, s3) ← unary fuel s2
      factorLoop fuel (Expr.BinaryExpr left op right) s3
    else .ok (left, s2)

/-- `Parser::unary`: prefix `+`/`-`, then a parenthesised-expression branch
(with a mandatory `consume(RightParen, "Expected ')'")`), else `primary`. -/
def unary : Nat → ParserState → Except PErr (Expr × ParserState)
  | 0, _ => .error .OutOfFuel
  | fuel + 1, s => do
    let (m1, s1) ← matchT s TokenType.Plus
    let (m, s2) ← if m1 then pure (true, s1) else matchT s1 TokenType.Minus
    if m then do
      let op ← previous s2
      let (e, s3) ← unary fuel s2
      .ok (Expr.UnaryExpr op e, s3)
    else do
      let (mp, s4) ← matchT s2 TokenType.LeftParen
      if mp then do
        let (e, s5) ← expr fuel s4
        let s6 ← consume s5 TokenType.RightParen "Expected \x27)\x27"
        .ok (e, s6)
      else primary fuel s4

/-- `Parser::primary`: `false`/`true`/`Number`/`String` literals, a
parenthesised branch whose `match(RightParen)` result is discarded (as in
the source), else `throw std::runtime_error("Parsing Error - Unexpected
token: " + peek().lexeme)` — note the unchecked `peek()` on this path. -/
def primary : Nat → ParserState → Except PErr (Expr × ParserState)
  | 0, _ => .error .OutOfFuel
  | fuel + 1, s => do
    let (mf, s1) ← matchT s TokenType.False
    if mf then .ok (Expr.LiteralExpr (LitValue.bool false), s1)
    else do
      let (mt, s2) ← matchT s1 TokenType.True
      if mt then .ok (Expr.LiteralExpr (LitValue.bool true), s2)
      else do
        let (mn, s3) ← matchT s2 TokenType.Number
        let (m, s4) ← if mn then pure (true, s3) else matchT s3 TokenType.String
        if m then do
          let tk ← previous s4
          .ok (Expr.LiteralExpr tk.literal, s4)
        else do
          let (mp, s5) ← matchT s4 TokenType.LeftParen
          if mp then do
            let (e, s6) ← expr fuel s5
            let (_, s7) ← matchT s6 TokenType.RightParen
            .ok (e, s7)
          else do
            let tk ← peek s5
            .error (.SyntaxError ("Parsing Error - Unexpected token: " ++ tk.lexeme))

end

/-- Fuel sufficient for any parse of `tokens` (the call depth of the C++
recursion is linear in the number of tokens; `fuel_adequate` below proves
this bound suffices). -/
def bigFuel (tokens : List Token) : Nat := 12 * tokens.length + 20

/-- `Parser::parse`, run on a fresh parser (`current = 0`). -/
def parse (tokens : List Token) : Except PErr (List Stmt) := do
  let (stmts, _) ← parseLoop (bigFuel tokens) ⟨tokens, 0⟩ []
  .ok stmts

/-! ### Primitive-level lemmas -/

theorem bind_ok {α β : Type} (a : α) (f : α → Except PErr β) :
    (Except.ok a >>= f) = f a := rfl

theorem bind_err {α β : Type} (e : PErr) (f : α → Except PErr β) :
    ((Except.error e : Except PErr α) >>= f) = .error e := rfl

theorem pure_ok {α : Type} (a : α) : (pure a : Except PErr α) = .ok a := rfl

/-- The exact condition under which `Parser::match` (and `Parser::check`)
answers true: the cursor reads a token of the wanted kind, and that kind is
not `Eof` (an `Eof` at the cursor makes `atEnd`, hence `check`, false). -/
def canMatch (s : ParserState) (t : TokenType) : Bool :=
  match s.tokens[s.current]? with
  | some tok => decide (tok.type = t ∧ t ≠ TokenType.Eof)
  | none => false

theorem canMatch_iff (s : ParserState) (t : TokenType) :
    canMatch s t = true ↔
      ∃ tok, s.tokens[s.current]? = some tok ∧ tok.type = t ∧ t ≠ TokenType.Eof := by
  unfold canMatch
  cases h : s.tokens[s.current]? <;> simp [h]

theorem peek_some {s : ParserState} {tok : Token}
    (h : s.tokens[s.current]? = some tok) : peek s = .ok tok := by
  unfold peek; rw [h]

theorem peek_none {s : ParserState}
    (h : s.tokens[s.current]? = none) : peek s = .error .OutOfBounds := by
  unfold peek; rw [h]

/-- What `atEnd` computes, as a Bool-valued function of the state. -/
def atEndB (s : ParserState) : Bool :=
  decide (s.tokens.length ≤ s.current) ||
    (match s.tokens[s.current]? with
     | some tok => decide (tok.type = TokenType.Eof)
     | none => false)

/-- `atEnd` never fails: the `peek` inside it runs only after the bounds
test `current >= tokens.size()` short-circuits. -/
theorem atEnd_eq (s : ParserState) : atEnd s = .ok (atEndB s) := by
  unfold atEnd atEndB
  by_cases h : s.tokens.length ≤ s.current
  · simp [h]
  · have hlt : s.current < s.tokens.length := Nat.lt_of_not_le h
    have hget : s.tokens[s.current]? = some (s.tokens.get ⟨s.current, hlt⟩) :=
      List.getElem?_eq_getElem hlt
    simp [h, peek_some hget, bind_ok, hget]

theorem previous_succ {l : List Token} {c : Nat} {tok : Token}
    (h : l[c]? = some tok) : previous ⟨l, c + 1⟩ = .ok tok := by
  unfold previous
  simp [h]

theorem matchT_eq_true {s : ParserState} {t : TokenType}
    (h : canMatch s t = true) :
    matchT s t = .ok (true, ⟨s.tokens, s.current + 1⟩) := by
  obtain ⟨tok, hget, htt, hne⟩ := (canMatch_iff s t).mp h
  have hlt : s.current < s.tokens.length := by
    have := List.getElem?_eq_some_iff.mp hget
    exact this.1
  have hEndB : atEndB s = false := by
    unfold atEndB
    rw [hget]
    simp [Nat.not_le.mpr hlt]
    rw [htt]; exact hne
  have hchk : check s t = .ok true := by
    unfold check
    rw [atEnd_eq, bind_ok, hEndB]
    simp [peek_some hget, bind_ok, htt]
  have hadv : advance s = .ok (tok, ⟨s.tokens, s.current + 1⟩) := by
    unfold advance
    rw [atEnd_eq, bind_ok, hEndB]
    simp only [Bool.false_eq_true, if_false]
    have : ({ s with current := s.current + 1 } : ParserState) =
        ⟨s.tokens, s.current + 1⟩ := rfl
    rw [this, previous_succ hget, bind_ok]
  unfold matchT
  simp only [hlt, if_true, dite_eq_ite]
  rw [hchk, bind_ok]
  simp only [if_true]
  rw [hadv, bind_ok]

/-- `check` never fails, and it answers exactly `canMatch`. -/
theorem check_eq (s : ParserState) (t : TokenType) :
    check s t = .ok (canMatch s t) := by
  unfold check canMatch
  rw [atEnd_eq, bind_ok]
  by_cases hlen : s.tokens.length ≤ s.current
  · have hget : s.tokens[s.current]? = none := by
      simp [List.getElem?_eq_none_iff, hlen]
    unfold atEndB
    rw [hget]
    simp [hlen]
  · have hlt : s.current < s.tokens.length := Nat.lt_of_not_le hlen
    have hget : s.tokens[s.current]? = some (s.tokens[s.current]) :=
      List.getElem?_eq_getElem hlt
    rw [hget]
    by_cases hEof : (s.tokens[s.current]).type = TokenType.Eof
    · have : atEndB s = true := by
        unfold atEndB; rw [hget]; simp [hEof]
      rw [this]
      simp only [if_true]
      by_cases htt : (s.tokens[s.current]).type = t
      · have : t = TokenType.Eof := htt ▸ hEof
        simp [htt, this]
      · simp [htt]
    · have : atEndB s = false := by
        unfold atEndB; rw [hget]; simp [hlen, hEof]
      rw [this]
      simp only [Bool.false_eq_true, if_false]
      rw [peek_some hget, bind_ok]
      by_cases htt : (s.tokens[s.current]).type = t
      · have hne : t ≠ TokenType.Eof := htt ▸ hEof
        simp [htt, hne]
      · simp [htt]

theorem matchT_eq_false {s : ParserState} {t : TokenType}
    (h : canMatch s t = false) :
    matchT s t = .ok (false, s) := by
  unfold matchT
  by_cases hlt : s.current < s.tokens.length
  · simp only [hlt, if_true]
    rw [check_eq, bind_ok, h]
    simp
  · simp [hlt]

theorem consume_eq_true {s : ParserState} {t : TokenType} (msg : String)
    (h : canMatch s t = true) :
    consume s t msg = .ok ⟨s.tokens, s.current + 1⟩ := by
  unfold consume
  rw [matchT_eq_true h, bind_ok]
  simp

theorem consume_eq_false {s : ParserState} {t : TokenType} (msg : String)
    (h : canMatch s t = false) :
    consume s t msg = .error (.SyntaxError msg) := by
  unfold consume
  rw [matchT_eq_false h, bind_ok]
  simp

/-! ### Cursor invariants -/

/-- `InvK k s`: position `k` of the token sequence holds an `Eof` token the
cursor has not passed.  This is the spec's input contract (§6): the sequence
is terminated by an `Eof` sentinel. -/
def InvK (k : Nat) (s : ParserState) : Prop :=
  s.current ≤ k ∧ ∃ tok, s.tokens[k]? = some tok ∧ tok.type = TokenType.Eof

/-- What every parser step preserves: the token sequence is untouched, the
cursor moves monotonically, stays within the sequence, and never passes an
`Eof` sentinel. -/
def Mono (s s' : ParserState) : Prop :=
  s'.tokens = s.tokens ∧ s.current ≤ s'.current ∧
  s'.current ≤ s.tokens.length ∧ (∀ k, InvK k s → s'.current ≤ k)

theorem mono_refl {s : ParserState} (h : s.current ≤ s.tokens.length) :
    Mono s s :=
  ⟨rfl, le_refl _, h, fun _ hk => hk.1⟩

theorem invK_mono {k : Nat} {s s' : ParserState}
    (hm : Mono s s') (hk : InvK k s) : InvK k s' := by
  obtain ⟨htok, _, _, hpass⟩ := hm
  exact ⟨hpass k hk, by rw [htok]; exact hk.2⟩

theorem mono_trans {s s1 s2 : ParserState}
    (h1 : Mono s s1) (h2 : Mono s1 s2) : Mono s s2 := by
  obtain ⟨ht1, hc1, hl1, hp1⟩ := h1
  obtain ⟨ht2, hc2, hl2, hp2⟩ := h2
  refine ⟨ht2.trans ht1, hc1.trans hc2, ?_, ?_⟩
  · rw [ht1] at hl2; exact hl2
  · intro k hk
    exact hp2 k (invK_mono ⟨ht1, hc1, hl1, hp1⟩ hk)

/-- `match` in one equation: it answers `canMatch` and advances exactly on
success. -/
theorem matchT_eq (s : ParserState) (t : TokenType) :
    matchT s t = .ok (canMatch s t,
      if canMatch s t then (⟨s.tokens, s.current + 1⟩ : ParserState) else s) := by
  cases h : canMatch s t
  · rw [matchT_eq_false h]; simp
  · rw [matchT_eq_true h]; simp

theorem matchT_ok_inv {s : ParserState} {t : TokenType} {b : Bool}
    {s' : ParserState} (h : matchT s t = .ok (b, s')) :
    b = canMatch s t ∧
      s' = if canMatch s t then (⟨s.tokens, s.current + 1⟩ : ParserState) else s := by
  rw [matchT_eq s t] at h
  have h2 := Except.ok.inj h
  have hb := congrArg Prod.fst h2
  have hs := congrArg Prod.snd h2
  exact ⟨hb.symm, hs.symm⟩

theorem mono_matchT {s : ParserState} {t : TokenType} {b : Bool}
    {s' : ParserState} (h : matchT s t = .ok (b, s'))
    (hlen : s.current ≤ s.tokens.length) : Mono s s' := by
  obtain ⟨-, hs'⟩ := matchT_ok_inv h
  by_cases hc : canMatch s t = true
  · rw [hc] at hs'
    simp only [if_true] at hs'
    subst hs'
    obtain ⟨tok, hget, htt, hne⟩ := (canMatch_iff s t).mp hc
    have hlt : s.current < s.tokens.length := (List.getElem?_eq_some_iff.mp hget).1
    refine ⟨rfl, Nat.le_succ _, hlt, ?_⟩
    intro k hk
    obtain ⟨hck, tok', hget', htt'⟩ := hk
    rcases Nat.lt_or_ge s.current k with hlt' | hge
    · exact hlt'
    · exfalso
      have : s.current = k := Nat.le_antisymm hck hge
      subst this
      rw [hget] at hget'
      have : tok = tok' := Option.some.inj hget'
      subst this
      rw [htt] at htt'
      exact hne htt'
  · have hc' : canMatch s t = false := by simpa using hc
    rw [hc'] at hs'
    simp only [Bool.false_eq_true, if_false] at hs'
    subst hs'
    exact mono_refl hlen

/-- The strict-progress content of a successful `match`. -/
theorem matchT_true_inv {s : ParserState} {t : TokenType} {s' : ParserState}
    (h : matchT s t = .ok (true, s')) :
    canMatch s t = true ∧ s' = (⟨s.tokens, s.current + 1⟩ : ParserState) := by
  obtain ⟨hb, hs'⟩ := matchT_ok_inv h
  have hc : canMatch s t = true := hb.symm
  rw [hc] at hs'
  simp only [if_true] at hs'
  exact ⟨hc, hs'⟩

theorem matchT_false_inv {s : ParserState} {t : TokenType} {s' : ParserState}
    (h : matchT s t = .ok (false, s')) :
    canMatch s t = false ∧ s' = s := by
  obtain ⟨hb, hs'⟩ := matchT_ok_inv h
  have hc : canMatch s t = false := hb.symm
  rw [hc] at hs'
  simp only [Bool.false_eq_true, if_false] at hs'
  exact ⟨hc, hs'⟩

/-- `consume` in one case split. -/
theorem consume_cases (s : ParserState) (t : TokenType) (msg : String) :
    (canMatch s t = true ∧ consume s t msg = .ok ⟨s.tokens, s.current + 1⟩) ∨
      (canMatch s t = false ∧ consume s t msg = .error (.SyntaxError msg)) := by
  cases h : canMatch s t
  · exact Or.inr ⟨rfl, consume_eq_false msg h⟩
  · exact Or.inl ⟨rfl, consume_eq_true msg h⟩

theorem consume_ok_inv {s : ParserState} {t : TokenType} {msg : String}
    {s' : ParserState} (h : consume s t msg = .ok s') :
    canMatch s t = true ∧ s' = (⟨s.tokens, s.current + 1⟩ : ParserState) := by
  rcases consume_cases s t msg with ⟨hc, he⟩ | ⟨hc, he⟩
  · rw [he] at h
    exact ⟨hc, (Except.ok.inj h).symm⟩
  · rw [he] at h
    exact absurd h (by simp)

theorem consume_ne_oob (s : ParserState) (t : TokenType) (msg : String) :
    consume s t msg ≠ .error .OutOfBounds := by
  rcases consume_cases s t msg with ⟨-, he⟩ | ⟨-, he⟩ <;> rw [he] <;> simp

theorem mono_consume {s : ParserState} {t : TokenType} {msg : String}
    {s' : ParserState} (h : consume s t msg = .ok s')
    (hlen : s.current ≤ s.tokens.length) : Mono s s' := by
  obtain ⟨hc, hs'⟩ := consume_ok_inv h
  have : matchT s t = .ok (true, s') := by
    rw [matchT_eq, hc]
    simp only [if_true]
    rw [hs']
  exact mono_matchT this hlen

/-! ### Step conclusions and combinators for the grammar procedures -/

/-- Conclusions of the step lemma for a grammar procedure: on success the
cursor strictly advances (with `Mono`), and under an `Eof` sentinel the
procedure never reads out of bounds. -/
def StepOk {α : Type} (s : ParserState) (r : Except PErr (α × ParserState)) : Prop :=
  (∀ a s', r = .ok (a, s') → Mono s s' ∧ s.current < s'.current) ∧
  (∀ k, InvK k s → r ≠ .error .OutOfBounds)

/-- The weak variant (for the loop procedures, which may succeed without
consuming anything). -/
def StepOkW {α : Type} (s : ParserState) (r : Except PErr (α × ParserState)) : Prop :=
  (∀ a s', r = .ok (a, s') → Mono s s') ∧
  (∀ k, InvK k s → r ≠ .error .OutOfBounds)

theorem StepOk.toW {α : Type} {s : ParserState}
    {r : Except PErr (α × ParserState)} (h : StepOk s r) : StepOkW s r :=
  ⟨fun a s' hok => (h.1 a s' hok).1, h.2⟩

theorem stepOk_error {α : Type} {s : ParserState} {e : PErr}
    (h : e ≠ .OutOfBounds) : StepOk s (.error e : Except PErr (α × ParserState)) :=
  ⟨fun _ _ hok => absurd hok (by simp), fun _ _ hc => h (Except.error.inj hc)⟩

theorem stepOkW_error {α : Type} {s : ParserState} {e : PErr}
    (h : e ≠ .OutOfBounds) : StepOkW s (.error e : Except PErr (α × ParserState)) :=
  (stepOk_error h).toW

theorem stepOkW_pure {α : Type} {s : ParserState} (a : α)
    (hlen : s.current ≤ s.tokens.length) :
    StepOkW s (.ok (a, s) : Except PErr (α × ParserState)) :=
  ⟨fun b s' hok => by
      have h2 := Except.ok.inj hok
      have hs := congrArg Prod.snd h2
      simp only at hs
      rw [← hs]
      exact mono_refl hlen,
   fun _ _ hc => by simp at hc⟩

theorem stepOk_ok_state {α : Type} {s s1 : ParserState} (a : α)
    (hm : Mono s s1) (hst : s.current < s1.current) :
    StepOk s (.ok (a, s1) : Except PErr (α × ParserState)) :=
  ⟨fun b s' hok => by
      have h2 := Except.ok.inj hok
      have hs := congrArg Prod.snd h2
      simp only at hs
      rw [← hs]
      exact ⟨hm, hst⟩,
   fun _ _ hc => by simp at hc⟩

theorem stepOkW_ok_state {α : Type} {s s1 : ParserState} (a : α)
    (hm : Mono s s1) :
    StepOkW s (.ok (a, s1) : Except PErr (α × ParserState)) :=
  ⟨fun b s' hok => by
      have h2 := Except.ok.inj hok
      have hs := congrArg Prod.snd h2
      simp only at hs
      rw [← hs]
      exact hm,
   fun _ _ hc => by simp at hc⟩

theorem mono_len {s s1 : ParserState} (h : Mono s s1) :
    s1.current ≤ s1.tokens.length := by
  rw [h.1]
  exact h.2.2.1

theorem stepOk_shiftW {α : Type} {s s1 : ParserState}
    {r : Except PErr (α × ParserState)} (hm : Mono s s1)
    (hst : s.current < s1.current) (h : StepOkW s1 r) : StepOk s r := by
  constructor
  · intro a s' hok
    have h1 := h.1 a s' hok
    exact ⟨mono_trans hm h1, Nat.lt_of_lt_of_le hst h1.2.1⟩
  · intro k hk
    exact h.2 k (invK_mono hm hk)

theorem stepOk_shift {α : Type} {s s1 : ParserState}
    {r : Except PErr (α × ParserState)} (hm : Mono s s1)
    (h : StepOk s1 r) : StepOk s r := by
  constructor
  · intro a s' hok
    have h1 := h.1 a s' hok
    exact ⟨mono_trans hm h1.1, Nat.lt_of_le_of_lt hm.2.1 h1.2⟩
  · intro k hk
    exact h.2 k (invK_mono hm hk)

theorem stepOkW_shift {α : Type} {s s1 : ParserState}
    {r : Except PErr (α × ParserState)} (hm : Mono s s1)
    (h : StepOkW s1 r) : StepOkW s r := by
  constructor
  · intro a s' hok
    exact mono_trans hm (h.1 a s' hok)
  · intro k hk
    exact h.2 k (invK_mono hm hk)

theorem stepOkW_bind {α β : Type} {s : ParserState}
    {x : Except PErr (α × ParserState)}
    {f : α × ParserState → Except PErr (β × ParserState)}
    (hx : StepOkW s x)
    (hf : ∀ a s1, x = .ok (a, s1) → Mono s s1 → StepOkW s1 (f (a, s1))) :
    StepOkW s (x >>= f) := by
  constructor
  · intro b s' hok
    cases x with
    | error e => rw [bind_err] at hok; exact absurd hok (by simp)
    | ok p =>
      obtain ⟨a, s1⟩ := p
      rw [bind_ok] at hok
      have hm := hx.1 a s1 rfl
      exact mono_trans hm ((hf a s1 rfl hm).1 b s' hok)
  · intro k hk hc
    cases hxx : x with
    | error e =>
      rw [hxx, bind_err] at hc
      have he := Except.error.inj hc
      rw [he] at hxx
      exact hx.2 k hk hxx
    | ok p =>
      obtain ⟨a, s1⟩ := p
      rw [hxx, bind_ok] at hc
      have hm := hx.1 a s1 hxx
      exact (hf a s1 hxx hm).2 k (invK_mono hm hk) hc

theorem stepOk_bind_strict1 {α β : Type} {s : ParserState}
    {x : Except PErr (α × ParserState)}
    {f : α × ParserState → Except PErr (β × ParserState)}
    (hx : StepOk s x)
    (hf : ∀ a s1, x = .ok (a, s1) → Mono s s1 → s.current < s1.current →
      StepOkW s1 (f (a, s1))) :
    StepOk s (x >>= f) := by
  constructor
  · intro b s' hok
    cases x with
    | error e => rw [bind_err] at hok; exact absurd hok (by simp)
    | ok p =>
      obtain ⟨a, s1⟩ := p
      rw [bind_ok] at hok
      have hm := hx.1 a s1 rfl
      have h2 := (hf a s1 rfl hm.1 hm.2).1 b s' hok
      exact ⟨mono_trans hm.1 h2, Nat.lt_of_lt_of_le hm.2 h2.2.1⟩
  · intro k hk hc
    cases hxx : x with
    | error e =>
      rw [hxx, bind_err] at hc
      have he := Except.error.inj hc
      rw [he] at hxx
      exact hx.2 k hk hxx
    | ok p =>
      obtain ⟨a, s1⟩ := p
      rw [hxx, bind_ok] at hc
      have hm := hx.1 a s1 hxx
      exact (hf a s1 hxx hm.1 hm.2).2 k (invK_mono hm.1 hk) hc

theorem stepOk_bind_strict2 {α β : Type} {s : ParserState}
    {x : Except PErr (α × ParserState)}
    {f : α × ParserState → Except PErr (β × ParserState)}
    (hx : StepOkW s x)
    (hf : ∀ a s1, x = .ok (a, s1) → Mono s s1 → StepOk s1 (f (a, s1))) :
    StepOk s (x >>= f) := by
  constructor
  · intro b s' hok
    cases x with
    | error e => rw [bind_err] at hok; exact absurd hok (by simp)
    | ok p =>
      obtain ⟨a, s1⟩ := p
      rw [bind_ok] at hok
      have hm := hx.1 a s1 rfl
      have h2 := (hf a s1 rfl hm).1 b s' hok
      exact ⟨mono_trans hm h2.1, Nat.lt_of_le_of_lt hm.2.1 h2.2⟩
  · intro k hk hc
    cases hxx : x with
    | error e =>
      rw [hxx, bind_err] at hc
      have he := Except.error.inj hc
      rw [he] at hxx
      exact hx.2 k hk hxx
    | ok p =>
      obtain ⟨a, s1⟩ := p
      rw [hxx, bind_ok] at hc
      have hm := hx.1 a s1 hxx
      exact (hf a s1 hxx hm).2 k (invK_mono hm hk) hc

theorem mono_bump {s : ParserState} {t : TokenType}
    (h : canMatch s t = true) (hlen : s.current ≤ s.tokens.length) :
    Mono s ⟨s.tokens, s.current + 1⟩ :=
  mono_matchT (matchT_eq_true h) hlen

/-- The tail `consume(...); return node;` shared by the statement
procedures: always a strict step, never out of bounds. -/
theorem stepOk_consume_tail {β : Type} (v : β) (s : ParserState)
    (t : TokenType) (msg : String) (hlen : s.current ≤ s.tokens.length) :
    StepOk s (consume s t msg >>= fun s2 => .ok (v, s2)) := by
  rcases consume_cases s t msg with ⟨hc, he⟩ | ⟨hc, he⟩
  · rw [he, bind_ok]
    exact stepOk_ok_state v (mono_bump hc hlen) (Nat.lt_succ_self _)
  · rw [he, bind_err]
    exact stepOk_error (by simp)

theorem invK_peek {k : Nat} {s : ParserState} (hk : InvK k s) :
    ∃ tok, s.tokens[s.current]? = some tok := by
  obtain ⟨hck, tok, hget, -⟩ := hk
  have hklen : k < s.tokens.length := (List.getElem?_eq_some_iff.mp hget).1
  have : s.current < s.tokens.length := Nat.lt_of_le_of_lt hck hklen
  exact ⟨s.tokens[s.current], List.getElem?_eq_getElem this⟩

/-- The `op = previous(); right = sub(); left = Binary(left, op, right)`
body shared by the four binary-operator loops. -/
theorem stepOkW_opBranch {s : ParserState} {fuel : Nat} {t : TokenType}
    {subp : Nat → ParserState → Except PErr (Expr × ParserState)}
    {loop : Nat → Expr → ParserState → Except PErr (Expr × ParserState)}
    (mk : Token → Expr → Expr)
    (h : canMatch s t = true) (hlen : s.current ≤ s.tokens.length)
    (hsub : ∀ s1 : ParserState, s1.current ≤ s1.tokens.length →
      StepOk s1 (subp fuel s1))
    (hloop : ∀ (l : Expr) (s1 : ParserState), s1.current ≤ s1.tokens.length →
      StepOkW s1 (loop fuel l s1)) :
    StepOkW s (previous ⟨s.tokens, s.current + 1⟩ >>= fun op =>
      subp fuel ⟨s.tokens, s.current + 1⟩ >>= fun p =>
        loop fuel (mk op p.1) p.2) := by
  obtain ⟨tok, hget, -, -⟩ := (canMatch_iff s t).mp h
  rw [previous_succ hget, bind_ok]
  exact stepOkW_shift (mono_bump h hlen)
    (stepOkW_bind (hsub _ (mono_len (mono_bump h hlen))).toW
      (fun r s3 hx hm => hloop _ s3 (mono_len hm)))

/-- The `op = previous(); expr = unary(); return Unary(op, expr)` body of
`Parser::unary`. -/
theorem stepOk_unaryBranch {s : ParserState} {fuel : Nat} {t : TokenType}
    {subp : Nat → ParserState → Except PErr (Expr × ParserState)}
    (mk : Token → Expr → Expr)
    (h : canMatch s t = true) (hlen : s.current ≤ s.tokens.length)
    (hsub : ∀ s1 : ParserState, s1.current ≤ s1.tokens.length →
      StepOk s1 (subp fuel s1)) :
    StepOk s (previous ⟨s.tokens, s.current + 1⟩ >>= fun op =>
      subp fuel ⟨s.tokens, s.current + 1⟩ >>= fun p =>
        .ok (mk op p.1, p.2)) := by
  obtain ⟨tok, hget, -, -⟩ := (canMatch_iff s t).mp h
  rw [previous_succ hget, bind_ok]
  exact stepOk_shiftW (mono_bump h hlen) (Nat.lt_succ_self _)
    (stepOkW_bind (hsub _ (mono_len (mono_bump h hlen))).toW
      (fun e s3 hx hm => stepOkW_pure _ (mono_len hm)))

/-- The `return Literal(previous().literal)` body of `Parser::primary`. -/
theorem stepOk_litBranch {s : ParserState} {t : TokenType}
    (h : canMatch s t = true) (hlen : s.current ≤ s.tokens.length) :
    StepOk s (previous ⟨s.tokens, s.current + 1⟩ >>= fun tk =>
      .ok (Expr.LiteralExpr tk.literal, (⟨s.tokens, s.current + 1⟩ : ParserState))) := by
  obtain ⟨tok, hget, -, -⟩ := (canMatch_iff s t).mp h
  rw [previous_succ hget, bind_ok]
  exact stepOk_ok_state _ (mono_bump h hlen) (Nat.lt_succ_self _)

/-- The step lemma for every grammar procedure, by induction on fuel: on
success the cursor advances monotonically (strictly for the non-loop
procedures) without passing an `Eof` sentinel, and with an `Eof` sentinel
present no procedure ever reads out of bounds. -/
theorem stepAll : ∀ fuel : Nat,
    (∀ s acc, s.current ≤ s.tokens.length → StepOkW s (parseLoop fuel s acc)) ∧
    (∀ s, s.current ≤ s.tokens.length → StepOk s (statement fuel s)) ∧
    (∀ s, s.current ≤ s.tokens.length → StepOk s (blockStmt fuel s)) ∧
    (∀ s acc, s.current ≤ s.tokens.length → StepOkW s (blockLoop fuel s acc)) ∧
    (∀ s, s.current ≤ s.tokens.length → StepOk s (printStatement fuel s)) ∧
    (∀ s, s.current ≤ s.tokens.length → StepOk s (IfStatement fuel s)) ∧
    (∀ s, s.current ≤ s.tokens.length → StepOk s (expressionStatement fuel s)) ∧
    (∀ s, s.current ≤ s.tokens.length → StepOk s (expr fuel s)) ∧
    (∀ s, s.current ≤ s.tokens.length → StepOk s (equality fuel s)) ∧
    (∀ left s, s.current ≤ s.tokens.length → StepOkW s (equalityLoop fuel left s)) ∧
    (∀ s, s.current ≤ s.tokens.length → StepOk s (comparison fuel s)) ∧
    (∀ left s, s.current ≤ s.tokens.length → StepOkW s (comparisonLoop fuel left s)) ∧
    (∀ s, s.current ≤ s.tokens.length → StepOk s (term fuel s)) ∧
    (∀ left s, s.current ≤ s.tokens.length → StepOkW s (termLoop fuel left s)) ∧
    (∀ s, s.current ≤ s.tokens.length → StepOk s (factor fuel s)) ∧
    (∀ left s, s.current ≤ s.tokens.length → StepOkW s (factorLoop fuel left s)) ∧
    (∀ s, s.current ≤ s.tokens.length → StepOk s (unary fuel s)) ∧
    (∀ s, s.current ≤ s.tokens.length → StepOk s (primary fuel s)) := by
  intro fuel
  induction fuel with
  | zero =>
    refine ⟨?_, ?_, ?_, ?_, ?_, ?_, ?_, ?_, ?_, ?_, ?_, ?_, ?_, ?_, ?_, ?_, ?_, ?_⟩ <;>
      intros <;>
      simp only [parseLoop, statement, blockStmt, blockLoop, printStatement,
        IfStatement, expressionStatement, expr, equality, equalityLoop,
        comparison, comparisonLoop, term, termLoop, factor, factorLoop,
        unary, primary] <;>
      first
        | exact stepOkW_error (by simp)
        | exact stepOk_error (by simp)
  | succ fuel ih =>
    obtain ⟨ihPL, ihST, ihBS, ihBL, ihPS, ihIF, ihES, ihEX, ihEQ, ihEQL,
      ihCP, ihCPL, ihTM, ihTML, ihFC, ihFCL, ihUN, ihPR⟩ := ih
    refine ⟨?_, ?_, ?_, ?_, ?_, ?_, ?_, ?_, ?_, ?_, ?_, ?_, ?_, ?_, ?_, ?_, ?_, ?_⟩
    -- parseLoop
    · intro s acc hlen
      simp only [parseLoop]
      rw [atEnd_eq, bind_ok]
      cases hE : atEndB s
      · simp only [Bool.false_eq_true, if_false]
        exact stepOkW_bind (ihST s hlen).toW
          (fun st s1 hx hm => ihPL s1 (st :: acc) (mono_len hm))
      · simp only [if_true]
        exact stepOkW_pure _ hlen
    -- statement
    · intro s hlen
      simp only [statement]
      rw [matchT_eq, bind_ok]
      cases h1 : canMatch s TokenType.Print
      · simp only [Bool.false_eq_true, if_false]
        rw [matchT_eq, bind_ok]
        cases h2 : canMatch s TokenType.If
        · simp only [Bool.false_eq_true, if_false]
          rw [matchT_eq, bind_ok]
          cases h3 : canMatch s TokenType.LeftBrace
          · simp only [Bool.false_eq_true, if_false]
            exact ihES s hlen
          · simp only [if_true]
            exact stepOk_shiftW (mono_bump h3 hlen) (Nat.lt_succ_self _)
              (ihBS _ (mono_len (mono_bump h3 hlen))).toW
        · simp only [if_true]
          exact stepOk_shiftW (mono_bump h2 hlen) (Nat.lt_succ_self _)
            (ihIF _ (mono_len (mono_bump h2 hlen))).toW
      · simp only [if_true]
        exact stepOk_shiftW (mono_bump h1 hlen) (Nat.lt_succ_self _)
          (ihPS _ (mono_len (mono_bump h1 hlen))).toW
    -- blockStmt
    · intro s hlen
      simp only [blockStmt]
      exact stepOk_bind_strict2 (ihBL s [] hlen)
        (fun stmts s1 hx hm => stepOk_consume_tail _ s1 _ _ (mono_len hm))
    -- blockLoop
    · intro s acc hlen
      simp only [blockLoop]
      rw [check_eq, bind_ok]
      cases hc : canMatch s TokenType.RightBrace
      · simp only [Bool.false_eq_true, if_false]
        exact stepOkW_bind (ihST s hlen).toW
          (fun st s1 hx hm => ihBL s1 (st :: acc) (mono_len hm))
      · simp only [if_true]
        exact stepOkW_pure _ hlen
    -- printStatement
    · intro s hlen
      simp only [printStatement]
      exact stepOk_bind_strict2 (ihEX s hlen).toW
        (fun v s1 hx hm => stepOk_consume_tail _ s1 _ _ (mono_len hm))
    -- IfStatement
    · intro s hlen
      simp only [IfStatement]
      refine stepOk_bind_strict1 (ihEX s hlen) (fun cond s1 hx hm hst => ?_)
      refine stepOkW_bind (ihST s1 (mono_len hm)).toW (fun thenS s2 hx2 hm2 => ?_)
      rw [matchT_eq, bind_ok]
      cases hel : canMatch s2 TokenType.Else
      · simp only [Bool.false_eq_true, if_false]
        exact stepOkW_pure _ (mono_len hm2)
      · simp only [if_true]
        refine stepOkW_shift (mono_bump hel (mono_len hm2)) ?_
        exact stepOkW_bind (ihST _ (mono_len (mono_bump hel (mono_len hm2)))).toW
          (fun o s4 hx4 hm4 => stepOkW_pure _ (mono_len hm4))
    -- expressionStatement
    · intro s hlen
      simp only [expressionStatement]
      exact stepOk_bind_strict2 (ihEX s hlen).toW
        (fun v s1 hx hm => stepOk_consume_tail _ s1 _ _ (mono_len hm))
    -- expr
    · intro s hlen
      simp only [expr]
      exact ihEQ s hlen
    -- equality
    · intro s hlen
      simp only [equality]
      exact stepOk_bind_strict1 (ihCP s hlen)
        (fun l s1 hx hm hst => ihEQL l s1 (mono_len hm))
    -- equalityLoop
    · intro left s hlen
      simp only [equalityLoop]
      rw [matchT_eq, bind_ok]
      cases h1 : canMatch s TokenType.BangEqual
      · simp only [Bool.false_eq_true, if_false, pure_ok]
        rw [matchT_eq, bind_ok]
        cases h2 : canMatch s TokenType.EqualEqual
        · simp only [Bool.false_eq_true, if_false]
          exact stepOkW_pure _ hlen
        · simp only [if_true]
          exact stepOkW_opBranch (fun op r => Expr.BinaryExpr left op r)
            h2 hlen ihCP ihEQL
      · simp only [if_true, pure_ok, bind_ok]
        exact stepOkW_opBranch (fun op r => Expr.BinaryExpr left op r)
          h1 hlen ihCP ihEQL
    -- comparison
    · intro s hlen
      simp only [comparison]
      exact stepOk_bind_strict1 (ihTM s hlen)
        (fun l s1 hx hm hst => ihCPL l s1 (mono_len hm))
    -- comparisonLoop
    · intro left s hlen
      simp only [comparisonLoop]
      rw [matchT_eq, bind_ok]
      cases h1 : canMatch s TokenType.Greater
      · simp only [Bool.false_eq_true, if_false, pure_ok]
        rw [matchT_eq, bind_ok]
        cases h2 : canMatch s TokenType.GreaterEqual
        · simp only [Bool.false_eq_true, if_false, pure_ok]
          rw [matchT_eq, bind_ok]
          cases h3 : canMatch s TokenType.Less
          · simp only [Bool.false_eq_true, if_false, pure_ok]
            rw [matchT_eq, bind_ok]
            cases h4 : canMatch s TokenType.LessEqual
            · simp only [Bool.false_eq_true, if_false]
              exact stepOkW_pure _ hlen
            · simp only [if_true]
              exact stepOkW_opBranch (fun op r => Expr.BinaryExpr left op r)
                h4 hlen ihTM ihCPL
          · simp only [if_true, pure_ok, bind_ok]
            exact stepOkW_opBranch (fun op r => Expr.BinaryExpr left op r)
              h3 hlen ihTM ihCPL
        · simp only [if_true, pure_ok, bind_ok]
          exact stepOkW_opBranch (fun op r => Expr.BinaryExpr left op r)
            h2 hlen ihTM ihCPL
      · simp only [if_true, pure_ok, bind_ok]
        exact stepOkW_opBranch (fun op r => Expr.BinaryExpr left op r)
          h1 hlen ihTM ihCPL
    -- term
    · intro s hlen
      simp only [term]
      exact stepOk_bind_strict1 (ihFC s hlen)
        (fun l s1 hx hm hst => ihTML l s1 (mono_len hm))
    -- termLoop
    · intro left s hlen
      simp only [termLoop]
      rw [matchT_eq, bind_ok]
      cases h1 : canMatch s TokenType.Plus
      · simp only [Bool.false_eq_true, if_false, pure_ok]
        rw [matchT_eq, bind_ok]
        cases h2 : canMatch s TokenType.Minus
        · simp only [Bool.false_eq_true, if_false]
          exact stepOkW_pure _ hlen
        · simp only [if_true]
          exact stepOkW_opBranch (fun op r => Expr.BinaryExpr left op r)
            h2 hlen ihFC ihTML
      · simp only [if_true, pure_ok, bind_ok]
        exact stepOkW_opBranch (fun op r => Expr.BinaryExpr left op r)
          h1 hlen ihFC ihTML
    -- factor
    · intro s hlen
      simp only [factor]
      exact stepOk_bind_strict1 (ihUN s hlen)
        (fun l s1 hx hm hst => ihFCL l s1 (mono_len hm))
    -- factorLoop
    · intro left s hlen
      simp only [factorLoop]
      rw [matchT_eq, bind_ok]
      cases h1 : canMatch s TokenType.Star
      · simp only [Bool.false_eq_true, if_false, pure_ok]
        rw [matchT_eq, bind_ok]
        cases h2 : canMatch s TokenType.Slash
        · simp only [Bool.false_eq_true, if_false]
          exact stepOkW_pure _ hlen
        · simp only [if_true]
          exact stepOkW_opBranch (fun op r => Expr.BinaryExpr left op r)
            h2 hlen ihUN ihFCL
      · simp only [if_true, pure_ok, bind_ok]
        exact stepOkW_opBranch (fun op r => Expr.BinaryExpr left op r)
          h1 hlen ihUN ihFCL
    -- unary
    · intro s hlen
      simp only [unary]
      rw [matchT_eq, bind_ok]
      cases h1 : canMatch s TokenType.Plus
      · simp only [Bool.false_eq_true, if_false, pure_ok]
        rw [matchT_eq, bind_ok]
        cases h2 : canMatch s TokenType.Minus
        · simp only [Bool.false_eq_true, if_false]
          rw [matchT_eq, bind_ok]
          cases h3 : canMatch s TokenType.LeftParen
          · simp only [Bool.false_eq_true, if_false]
            exact ihPR s hlen
          · simp only [if_true]
            refine stepOk_shiftW (mono_bump h3 hlen) (Nat.lt_succ_self _) ?_
            exact stepOkW_bind (ihEX _ (mono_len (mono_bump h3 hlen))).toW
              (fun e s5 hx hm =>
                (stepOk_consume_tail e s5 _ _ (mono_len hm)).toW)
        · simp only [if_true]
          exact stepOk_unaryBranch (fun op e => Expr.UnaryExpr op e)
            h2 hlen ihUN
      · simp only [if_true, pure_ok, bind_ok]
        exact stepOk_unaryBranch (fun op e => Expr.UnaryExpr op e)
          h1 hlen ihUN
    -- primary
    · intro s hlen
      simp only [primary]
      rw [matchT_eq, bind_ok]
      cases h1 : canMatch s TokenType.False
      · simp only [Bool.false_eq_true, if_false]
        rw [matchT_eq, bind_ok]
        cases h2 : canMatch s TokenType.True
        · simp only [Bool.false_eq_true, if_false]
          rw [matchT_eq, bind_ok]
          cases h3 : canMatch s TokenType.Number
          · simp only [Bool.false_eq_true, if_false, pure_ok]
            rw [matchT_eq, bind_ok]
            cases h4 : canMatch s TokenType.String
            · simp only [Bool.false_eq_true, if_false]
              rw [matchT_eq, bind_ok]
              cases h5 : canMatch s TokenType.LeftParen
              · simp only [Bool.false_eq_true, if_false]
                constructor
                · intro a s' hok
                  cases hp : peek s with
                  | ok tok => rw [hp, bind_ok] at hok; exact absurd hok (by simp)
                  | error e => rw [hp, bind_err] at hok; exact absurd hok (by simp)
                · intro k hk hcon
                  obtain ⟨tok, hget⟩ := invK_peek hk
                  rw [peek_some hget, bind_ok] at hcon
                  exact absurd hcon (by simp)
              · simp only [if_true]
                refine stepOk_shiftW (mono_bump h5 hlen) (Nat.lt_succ_self _) ?_
                refine stepOkW_bind (ihEX _ (mono_len (mono_bump h5 hlen))).toW
                  (fun e s6 hx hm => ?_)
                rw [matchT_eq, bind_ok]
                cases h6 : canMatch s6 TokenType.RightParen
                · simp only [Bool.false_eq_true, if_false]
                  exact stepOkW_pure _ (mono_len hm)
                · simp only [if_true]
                  exact stepOkW_ok_state _ (mono_bump h6 (mono_len hm))
            · simp only [if_true]
              exact stepOk_litBranch h4 hlen
          · simp only [if_true, pure_ok, bind_ok]
            exact stepOk_litBranch h3 hlen
        · simp only [if_true]
          exact stepOk_ok_state _ (mono_bump h2 hlen) (Nat.lt_succ_self _)
      · simp only [if_true]
        exact stepOk_ok_state _ (mono_bump h1 hlen) (Nat.lt_succ_self _)

/-! ### Named projections of the step lemma -/

theorem parseLoop_step (fuel : Nat) :
    ∀ (s : ParserState) (acc : List Stmt), s.current ≤ s.tokens.length →
      StepOkW s (parseLoop fuel s acc) := (stepAll fuel).1

theorem statement_step (fuel : Nat) :
    ∀ s : ParserState, s.current ≤ s.tokens.length →
      StepOk s (statement fuel s) := (stepAll fuel).2.1

theorem blockStmt_step (fuel : Nat) :
    ∀ s : ParserState, s.current ≤ s.tokens.length →
      StepOk s (blockStmt fuel s) := (stepAll fuel).2.2.1

theorem blockLoop_step (fuel : Nat) :
    ∀ (s : ParserState) (acc : List Stmt), s.current ≤ s.tokens.length →
      StepOkW s (blockLoop fuel s acc) := (stepAll fuel).2.2.2.1

theorem expr_step (fuel : Nat) :
    ∀ s : ParserState, s.current ≤ s.tokens.length →
      StepOk s (expr fuel s) := (stepAll fuel).2.2.2.2.2.2.2.1

theorem comparison_step (fuel : Nat) :
    ∀ s : ParserState, s.current ≤ s.tokens.length →
      StepOk s (comparison fuel s) := (stepAll fuel).2.2.2.2.2.2.2.2.2.2.1

theorem term_step (fuel : Nat) :
    ∀ s : ParserState, s.current ≤ s.tokens.length →
      StepOk s (term fuel s) := (stepAll fuel).2.2.2.2.2.2.2.2.2.2.2.2.1

theorem factor_step (fuel : Nat) :
    ∀ s : ParserState, s.current ≤ s.tokens.length →
      StepOk s (factor fuel s) := (stepAll fuel).2.2.2.2.2.2.2.2.2.2.2.2.2.2.1

theorem unary_step (fuel : Nat) :
    ∀ s : ParserState, s.current ≤ s.tokens.length →
      StepOk s (unary fuel s) := (stepAll fuel).2.2.2.2.2.2.2.2.2.2.2.2.2.2.2.2.1

/-! ### Fuel adequacy: linear fuel never runs out -/

theorem noOF_bind {α β : Type} {x : Except PErr α} {f : α → Except PErr β}
    (hx : x ≠ .error .OutOfFuel)
    (hf : ∀ a, x = .ok a → f a ≠ .error .OutOfFuel) :
    (x >>= f) ≠ .error .OutOfFuel := by
  cases hxx : x with
  | error e =>
    rw [bind_err]
    intro hc
    have := Except.error.inj hc
    rw [hxx, this] at hx
    exact hx rfl
  | ok a =>
    rw [bind_ok]
    exact hf a hxx

theorem ok_ne_ofl {α : Type} (a : α) :
    (.ok a : Except PErr α) ≠ .error .OutOfFuel := by simp

theorem previous_ne_ofl (s : ParserState) : previous s ≠ .error .OutOfFuel := by
  unfold previous
  by_cases h : s.current = 0
  · simp [h]
  · simp only [h, if_false]
    cases hg : s.tokens[s.current - 1]? <;> simp

theorem peek_ne_ofl (s : ParserState) : peek s ≠ .error .OutOfFuel := by
  unfold peek
  cases hg : s.tokens[s.current]? <;> simp

theorem consume_ne_ofl (s : ParserState) (t : TokenType) (msg : String) :
    consume s t msg ≠ .error .OutOfFuel := by
  rcases consume_cases s t msg with ⟨-, he⟩ | ⟨-, he⟩ <;> rw [he] <;> simp

theorem canMatch_lt {s : ParserState} {t : TokenType}
    (h : canMatch s t = true) : s.current < s.tokens.length := by
  obtain ⟨tok, hget, -, -⟩ := (canMatch_iff s t).mp h
  exact (List.getElem?_eq_some_iff.mp hget).1

/-- Fuel adequacy for the `op = previous(); right = sub(...); loop` body of
the binary-operator loops. -/
theorem noOF_opBranch {s : ParserState} {fuel : Nat} {t : TokenType}
    {subp : Nat → ParserState → Except PErr (Expr × ParserState)}
    {loop : Nat → Expr → ParserState → Except PErr (Expr × ParserState)}
    (rsub rloop : Nat) (mk : Token → Expr → Expr)
    (h : canMatch s t = true)
    (hsubStep : ∀ s1 : ParserState, s1.current ≤ s1.tokens.length →
      StepOk s1 (subp fuel s1))
    (hsub : ∀ s1 : ParserState, s1.current ≤ s1.tokens.length →
      12 * (s1.tokens.length - s1.current) + rsub ≤ fuel →
      subp fuel s1 ≠ .error .OutOfFuel)
    (hloop : ∀ (l : Expr) (s1 : ParserState), s1.current ≤ s1.tokens.length →
      12 * (s1.tokens.length - s1.current) + rloop ≤ fuel →
      loop fuel l s1 ≠ .error .OutOfFuel)
    (hfuel : 12 * (s.tokens.length - s.current) + rloop ≤ fuel + 1)
    (hrs : rsub ≤ rloop + 11) :
    (previous ⟨s.tokens, s.current + 1⟩ >>= fun op =>
      subp fuel ⟨s.tokens, s.current + 1⟩ >>= fun p =>
        loop fuel (mk op p.1) p.2) ≠ .error .OutOfFuel := by
  have hlt := canMatch_lt h
  refine noOF_bind (previous_ne_ofl _) ?_
  intro op hop
  refine noOF_bind
    (hsub ⟨s.tokens, s.current + 1⟩ hlt
      (show 12 * (s.tokens.length - (s.current + 1)) + rsub ≤ fuel by omega)) ?_
  rintro ⟨right, s3⟩ hx3
  have hm3 := (hsubStep ⟨s.tokens, s.current + 1⟩ hlt).1 right s3 hx3
  have ht3 : s3.tokens = s.tokens := hm3.1.1
  have hc3 : s.current + 1 ≤ s3.current := hm3.1.2.1
  have hb3 : s3.current ≤ s.tokens.length := hm3.1.2.2.1
  refine hloop _ s3 (mono_len hm3.1) ?_
  rw [ht3]
  omega

/-- Fuel adequacy: with fuel linear in the number of unread tokens, no
grammar procedure ever exhausts its fuel — the embedding's counterpart of
the C++ parser's termination.  Each procedure carries a small additive rank
reflecting its depth in the grammar's call chain. -/
theorem fuelAll : ∀ fuel : Nat,
    (∀ s acc, s.current ≤ s.tokens.length →
      12 * (s.tokens.length - s.current) + 10 ≤ fuel →
      parseLoop fuel s acc ≠ .error .OutOfFuel) ∧
    (∀ s : ParserState, s.current ≤ s.tokens.length →
      12 * (s.tokens.length - s.current) + 9 ≤ fuel →
      statement fuel s ≠ .error .OutOfFuel) ∧
    (∀ s : ParserState, s.current ≤ s.tokens.length →
      12 * (s.tokens.length - s.current) + 11 ≤ fuel →
      blockStmt fuel s ≠ .error .OutOfFuel) ∧
    (∀ s acc, s.current ≤ s.tokens.length →
      12 * (s.tokens.length - s.current) + 10 ≤ fuel →
      blockLoop fuel s acc ≠ .error .OutOfFuel) ∧
    (∀ s : ParserState, s.current ≤ s.tokens.length →
      12 * (s.tokens.length - s.current) + 8 ≤ fuel →
      printStatement fuel s ≠ .error .OutOfFuel) ∧
    (∀ s : ParserState, s.current ≤ s.tokens.length →
      12 * (s.tokens.length - s.current) + 8 ≤ fuel →
      IfStatement fuel s ≠ .error .OutOfFuel) ∧
    (∀ s : ParserState, s.current ≤ s.tokens.length →
      12 * (s.tokens.length - s.current) + 8 ≤ fuel →
      expressionStatement fuel s ≠ .error .OutOfFuel) ∧
    (∀ s : ParserState, s.current ≤ s.tokens.length →
      12 * (s.tokens.length - s.current) + 7 ≤ fuel →
      expr fuel s ≠ .error .OutOfFuel) ∧
    (∀ s : ParserState, s.current ≤ s.tokens.length →
      12 * (s.tokens.length - s.current) + 6 ≤ fuel →
      equality fuel s ≠ .error .OutOfFuel) ∧
    (∀ (left : Expr) (s : ParserState), s.current ≤ s.tokens.length →
      12 * (s.tokens.length - s.current) + 17 ≤ fuel →
      equalityLoop fuel left s ≠ .error .OutOfFuel) ∧
    (∀ s : ParserState, s.current ≤ s.tokens.length →
      12 * (s.tokens.length - s.current) + 5 ≤ fuel →
      comparison fuel s ≠ .error .OutOfFuel) ∧
    (∀ (left : Expr) (s : ParserState), s.current ≤ s.tokens.length →
      12 * (s.tokens.length - s.current) + 16 ≤ fuel →
      comparisonLoop fuel left s ≠ .error .OutOfFuel) ∧
    (∀ s : ParserState, s.current ≤ s.tokens.length →
      12 * (s.tokens.length - s.current) + 4 ≤ fuel →
      term fuel s ≠ .error .OutOfFuel) ∧
    (∀ (left : Expr) (s : ParserState), s.current ≤ s.tokens.length →
      12 * (s.tokens.length - s.current) + 15 ≤ fuel →
      termLoop fuel left s ≠ .error .OutOfFuel) ∧
    (∀ s : ParserState, s.current ≤ s.tokens.length →
      12 * (s.tokens.length - s.current) + 3 ≤ fuel →
      factor fuel s ≠ .error .OutOfFuel) ∧
    (∀ (left : Expr) (s : ParserState), s.current ≤ s.tokens.length →
      12 * (s.tokens.length - s.current) + 14 ≤ fuel →
      factorLoop fuel left s ≠ .error .OutOfFuel) ∧
    (∀ s : ParserState, s.current ≤ s.tokens.length →
      12 * (s.tokens.length - s.current) + 2 ≤ fuel →
      unary fuel s ≠ .error .OutOfFuel) ∧
    (∀ s : ParserState, s.current ≤ s.tokens.length →
      12 * (s.tokens.length - s.current) + 1 ≤ fuel →
      primary fuel s ≠ .error .OutOfFuel) := by
  intro fuel
  induction fuel with
  | zero =>
    refine ⟨?_, ?_, ?_, ?_, ?_, ?_, ?_, ?_, ?_, ?_, ?_, ?_, ?_, ?_, ?_, ?_, ?_, ?_⟩ <;>
      first
        | (intro s acc hlen hfuel; exact absurd hfuel (by omega))
        | (intro s hlen hfuel; exact absurd hfuel (by omega))
        | (intro left s hlen hfuel; exact absurd hfuel (by omega))
  | succ fuel ih =>
    obtain ⟨ihPL, ihST, ihBS, ihBL, ihPS, ihIF, ihES, ihEX, ihEQ, ihEQL,
      ihCP, ihCPL, ihTM, ihTML, ihFC, ihFCL, ihUN, ihPR⟩ := ih
    refine ⟨?_, ?_, ?_, ?_, ?_, ?_, ?_, ?_, ?_, ?_, ?_, ?_, ?_, ?_, ?_, ?_, ?_, ?_⟩
    -- parseLoop (rank 10)
    · intro s acc hlen hfuel
      simp only [parseLoop]
      rw [atEnd_eq, bind_ok]
      cases hE : atEndB s
      · simp only [Bool.false_eq_true, if_false]
        refine noOF_bind (ihST s hlen (by omega)) ?_
        rintro ⟨st, s1⟩ hx
        have hm := (statement_step fuel s hlen).1 st s1 hx
        have ht1 : s1.tokens = s.tokens := hm.1.1
        have hc1 : s.current < s1.current := hm.2
        have hb1 : s1.current ≤ s.tokens.length := hm.1.2.2.1
        refine ihPL s1 (st :: acc) (mono_len hm.1) ?_
        rw [ht1]; omega
      · simp only [if_true]
        exact ok_ne_ofl _
    -- statement (rank 9)
    · intro s hlen hfuel
      simp only [statement]
      rw [matchT_eq, bind_ok]
      cases h1 : canMatch s TokenType.Print
      · simp only [Bool.false_eq_true, if_false]
        rw [matchT_eq, bind_ok]
        cases h2 : canMatch s TokenType.If
        · simp only [Bool.false_eq_true, if_false]
          rw [matchT_eq, bind_ok]
          cases h3 : canMatch s TokenType.LeftBrace
          · simp only [Bool.false_eq_true, if_false]
            exact ihES s hlen (by omega)
          · simp only [if_true]
            have hlt := canMatch_lt h3
            exact ihBS ⟨s.tokens, s.current + 1⟩ hlt
              (show 12 * (s.tokens.length - (s.current + 1)) + 11 ≤ fuel by omega)
        · simp only [if_true]
          have hlt := canMatch_lt h2
          exact ihIF ⟨s.tokens, s.current + 1⟩ hlt
            (show 12 * (s.tokens.length - (s.current + 1)) + 8 ≤ fuel by omega)
      · simp only [if_true]
        have hlt := canMatch_lt h1
        exact ihPS ⟨s.tokens, s.current + 1⟩ hlt
          (show 12 * (s.tokens.length - (s.current + 1)) + 8 ≤ fuel by omega)
    -- blockStmt (rank 11)
    · intro s hlen hfuel
      simp only [blockStmt]
      refine noOF_bind (ihBL s [] hlen (by omega)) ?_
      rintro ⟨stmts, s1⟩ hx
      refine noOF_bind (consume_ne_ofl _ _ _) ?_
      intro s2 hx2
      exact ok_ne_ofl _
    -- blockLoop (rank 10)
    · intro s acc hlen hfuel
      simp only [blockLoop]
      rw [check_eq, bind_ok]
      cases hc : canMatch s TokenType.RightBrace
      · simp only [Bool.false_eq_true, if_false]
        refine noOF_bind (ihST s hlen (by omega)) ?_
        rintro ⟨st, s1⟩ hx
        have hm := (statement_step fuel s hlen).1 st s1 hx
        have ht1 : s1.tokens = s.tokens := hm.1.1
        have hc1 : s.current < s1.current := hm.2
        have hb1 : s1.current ≤ s.tokens.length := hm.1.2.2.1
        refine ihBL s1 (st :: acc) (mono_len hm.1) ?_
        rw [ht1]; omega
      · simp only [if_true]
        exact ok_ne_ofl _
    -- printStatement (rank 8)
    · intro s hlen hfuel
      simp only [printStatement]
      refine noOF_bind (ihEX s hlen (by omega)) ?_
      rintro ⟨v, s1⟩ hx
      refine noOF_bind (consume_ne_ofl _ _ _) ?_
      intro s2 hx2
      exact ok_ne_ofl _
    -- IfStatement (rank 8)
    · intro s hlen hfuel
      simp only [IfStatement]
      refine noOF_bind (ihEX s hlen (by omega)) ?_
      rintro ⟨cond, s1⟩ hx
      have hm1 := (expr_step fuel s hlen).1 cond s1 hx
      have ht1 : s1.tokens = s.tokens := hm1.1.1
      have hc1 : s.current < s1.current := hm1.2
      have hb1 : s1.current ≤ s.tokens.length := hm1.1.2.2.1
      have hlen1 : s1.tokens.length = s.tokens.length := by rw [ht1]
      refine noOF_bind (ihST s1 (mono_len hm1.1) (by omega)) ?_
      rintro ⟨thenS, s2⟩ hx2
      have hm2 := (statement_step fuel s1 (mono_len hm1.1)).1 thenS s2 hx2
      have ht2 : s2.tokens = s1.tokens := hm2.1.1
      have hc2 : s1.current < s2.current := hm2.2
      have hb2 : s2.current ≤ s1.tokens.length := hm2.1.2.2.1
      have hlen2 : s2.tokens.length = s.tokens.length := by rw [ht2, ht1]
      rw [matchT_eq, bind_ok]
      cases hel : canMatch s2 TokenType.Else
      · simp only [Bool.false_eq_true, if_false]
        exact ok_ne_ofl _
      · simp only [if_true]
        have hlt := canMatch_lt hel
        refine noOF_bind (ihST ⟨s2.tokens, s2.current + 1⟩ hlt
          (show 12 * (s2.tokens.length - (s2.current + 1)) + 9 ≤ fuel by omega)) ?_
        rintro ⟨o, s4⟩ hx4
        exact ok_ne_ofl _
    -- expressionStatement (rank 8)
    · intro s hlen hfuel
      simp only [expressionStatement]
      refine noOF_bind (ihEX s hlen (by omega)) ?_
      rintro ⟨v, s1⟩ hx
      refine noOF_bind (consume_ne_ofl _ _ _) ?_
      intro s2 hx2
      exact ok_ne_ofl _
    -- expr (rank 7)
    · intro s hlen hfuel
      simp only [expr]
      exact ihEQ s hlen (by omega)
    -- equality (rank 6)
    · intro s hlen hfuel
      simp only [equality]
      refine noOF_bind (ihCP s hlen (by omega)) ?_
      rintro ⟨l, s1⟩ hx
      have hm := (comparison_step fuel s hlen).1 l s1 hx
      have ht1 : s1.tokens = s.tokens := hm.1.1
      have hc1 : s.current < s1.current := hm.2
      have hb1 : s1.current ≤ s.tokens.length := hm.1.2.2.1
      refine ihEQL l s1 (mono_len hm.1) ?_
      rw [ht1]; omega
    -- equalityLoop (rank 17)
    · intro left s hlen hfuel
      simp only [equalityLoop]
      rw [matchT_eq, bind_ok]
      cases h1 : canMatch s TokenType.BangEqual
      · simp only [Bool.false_eq_true, if_false, pure_ok]
        rw [matchT_eq, bind_ok]
        cases h2 : canMatch s TokenType.EqualEqual
        · simp only [Bool.false_eq_true, if_false]
          exact ok_ne_ofl _
        · simp only [if_true]
          exact noOF_opBranch 5 17 (fun op r => Expr.BinaryExpr left op r) h2
            (comparison_step fuel) ihCP ihEQL hfuel (by omega)
      · simp only [if_true, pure_ok, bind_ok]
        exact noOF_opBranch 5 17 (fun op r => Expr.BinaryExpr left op r) h1
          (comparison_step fuel) ihCP ihEQL hfuel (by omega)
    -- comparison (rank 5)
    · intro s hlen hfuel
      simp only [comparison]
      refine noOF_bind (ihTM s hlen (by omega)) ?_
      rintro ⟨l, s1⟩ hx
      have hm := (term_step fuel s hlen).1 l s1 hx
      have ht1 : s1.tokens = s.tokens := hm.1.1
      have hc1 : s.current < s1.current := hm.2
      have hb1 : s1.current ≤ s.tokens.length := hm.1.2.2.1
      refine ihCPL l s1 (mono_len hm.1) ?_
      rw [ht1]; omega
    -- comparisonLoop (rank 16)
    · intro left s hlen hfuel
      simp only [comparisonLoop]
      rw [matchT_eq, bind_ok]
      cases h1 : canMatch s TokenType.Greater
      · simp only [Bool.false_eq_true, if_false, pure_ok]
        rw [matchT_eq, bind_ok]
        cases h2 : canMatch s TokenType.GreaterEqual
        · simp only [Bool.false_eq_true, if_false, pure_ok]
          rw [matchT_eq, bind_ok]
          cases h3 : canMatch s TokenType.Less
          · simp only [Bool.false_eq_true, if_false, pure_ok]
            rw [matchT_eq, bind_ok]
            cases h4 : canMatch s TokenType.LessEqual
            · simp only [Bool.false_eq_true, if_false]
              exact ok_ne_ofl _
            · simp only [if_true]
              exact noOF_opBranch 4 16 (fun op r => Expr.BinaryExpr left op r) h4
                (term_step fuel) ihTM ihCPL hfuel (by omega)
          · simp only [if_true, pure_ok, bind_ok]
            exact noOF_opBranch 4 16 (fun op r => Expr.BinaryExpr left op r) h3
              (term_step fuel) ihTM ihCPL hfuel (by omega)
        · simp only [if_true, pure_ok, bind_ok]
          exact noOF_opBranch 4 16 (fun op r => Expr.BinaryExpr left op r) h2
            (term_step fuel) ihTM ihCPL hfuel (by omega)
      · simp only [if_true, pure_ok, bind_ok]
        exact noOF_opBranch 4 16 (fun op r => Expr.BinaryExpr left op r) h1
          (term_step fuel) ihTM ihCPL hfuel (by omega)
    -- term (rank 4)
    · intro s hlen hfuel
      simp only [term]
      refine noOF_bind (ihFC s hlen (by omega)) ?_
      rintro ⟨l, s1⟩ hx
      have hm := (factor_step fuel s hlen).1 l s1 hx
      have ht1 : s1.tokens = s.tokens := hm.1.1
      have hc1 : s.current < s1.current := hm.2
      have hb1 : s1.current ≤ s.tokens.length := hm.1.2.2.1
      refine ihTML l s1 (mono_len hm.1) ?_
      rw [ht1]; omega
    -- termLoop (rank 15)
    · intro left s hlen hfuel
      simp only [termLoop]
      rw [matchT_eq, bind_ok]
      cases h1 : canMatch s TokenType.Plus
      · simp only [Bool.false_eq_true, if_false, pure_ok]
        rw [matchT_eq, bind_ok]
        cases h2 : canMatch s TokenType.Minus
        · simp only [Bool.false_eq_true, if_false]
          exact ok_ne_ofl _
        · simp only [if_true]
          exact noOF_opBranch 3 15 (fun op r => Expr.BinaryExpr left op r) h2
            (factor_step fuel) ihFC ihTML hfuel (by omega)
      · simp only [if_true, pure_ok, bind_ok]
        exact noOF_opBranch 3 15 (fun op r => Expr.BinaryExpr left op r) h1
          (factor_step fuel) ihFC ihTML hfuel (by omega)
    -- factor (rank 3)
    · intro s hlen hfuel
      simp only [factor]
      refine noOF_bind (ihUN s hlen (by omega)) ?_
      rintro ⟨l, s1⟩ hx
      have hm := (unary_step fuel s hlen).1 l s1 hx
      have ht1 : s1.tokens = s.tokens := hm.1.1
      have hc1 : s.current < s1.current := hm.2
      have hb1 : s1.current ≤ s.tokens.length := hm.1.2.2.1
      refine ihFCL l s1 (mono_len hm.1) ?_
      rw [ht1]; omega
    -- factorLoop (rank 14)
    · intro left s hlen hfuel
      simp only [factorLoop]
      rw [matchT_eq, bind_ok]
      cases h1 : canMatch s TokenType.Star
      · simp only [Bool.false_eq_true, if_false, pure_ok]
        rw [matchT_eq, bind_ok]
        cases h2 : canMatch s TokenType.Slash
        · simp only [Bool.false_eq_true, if_false]
          exact ok_ne_ofl _
        · simp only [if_true]
          exact noOF_opBranch 2 14 (fun op r => Expr.BinaryExpr left op r) h2
            (unary_step fuel) ihUN ihFCL hfuel (by omega)
      · simp only [if_true, pure_ok, bind_ok]
        exact noOF_opBranch 2 14 (fun op r => Expr.BinaryExpr left op r) h1
          (unary_step fuel) ihUN ihFCL hfuel (by omega)
    -- unary (rank 2)
    · intro s hlen hfuel
      simp only [unary]
      rw [matchT_eq, bind_ok]
      cases h1 : canMatch s TokenType.Plus
      · simp only [Bool.false_eq_true, if_false, pure_ok]
        rw [matchT_eq, bind_ok]
        cases h2 : canMatch s TokenType.Minus
        · simp only [Bool.false_eq_true, if_false]
          rw [matchT_eq, bind_ok]
          cases h3 : canMatch s TokenType.LeftParen
          · simp only [Bool.false_eq_true, if_false]
            exact ihPR s hlen (by omega)
          · simp only [if_true]
            have hlt := canMatch_lt h3
            refine noOF_bind (ihEX ⟨s.tokens, s.current + 1⟩ hlt
              (show 12 * (s.tokens.length - (s.current + 1)) + 7 ≤ fuel by omega)) ?_
            rintro ⟨e, s5⟩ hx5
            refine noOF_bind (consume_ne_ofl _ _ _) ?_
            intro s6 hx6
            exact ok_ne_ofl _
        · simp only [if_true]
          have hlt := canMatch_lt h2
          refine noOF_bind (previous_ne_ofl _) ?_
          intro op hop
          refine noOF_bind (ihUN ⟨s.tokens, s.current + 1⟩ hlt
            (show 12 * (s.tokens.length - (s.current + 1)) + 2 ≤ fuel by omega)) ?_
          rintro ⟨e, s3⟩ hx3
          exact ok_ne_ofl _
      · simp only [if_true, pure_ok, bind_ok]
        have hlt := canMatch_lt h1
        refine noOF_bind (previous_ne_ofl _) ?_
        intro op hop
        refine noOF_bind (ihUN ⟨s.tokens, s.current + 1⟩ hlt
          (show 12 * (s.tokens.length - (s.current + 1)) + 2 ≤ fuel by omega)) ?_
        rintro ⟨e, s3⟩ hx3
        exact ok_ne_ofl _
    -- primary (rank 1)
    · intro s hlen hfuel
      simp only [primary]
      rw [matchT_eq, bind_ok]
      cases h1 : canMatch s TokenType.False
      · simp only [Bool.false_eq_true, if_false]
        rw [matchT_eq, bind_ok]
        cases h2 : canMatch s TokenType.True
        · simp only [Bool.false_eq_true, if_false]
          rw [matchT_eq, bind_ok]
          cases h3 : canMatch s TokenType.Number
          · simp only [Bool.false_eq_true, if_false, pure_ok]
            rw [matchT_eq, bind_ok]
            cases h4 : canMatch s TokenType.String
            · simp only [Bool.false_eq_true, if_false]
              rw [matchT_eq, bind_ok]
              cases h5 : canMatch s TokenType.LeftParen
              · simp only [Bool.false_eq_true, if_false]
                refine noOF_bind (peek_ne_ofl _) ?_
                intro tk htk
                simp
              · simp only [if_true]
                have hlt := canMatch_lt h5
                refine noOF_bind (ihEX ⟨s.tokens, s.current + 1⟩ hlt
                  (show 12 * (s.tokens.length - (s.current + 1)) + 7 ≤ fuel by omega)) ?_
                rintro ⟨e, s6⟩ hx6
                rw [matchT_eq, bind_ok]
                exact ok_ne_ofl _
            · simp only [if_true]
              refine noOF_bind (previous_ne_ofl _) ?_
              intro tk htk
              exact ok_ne_ofl _
          · simp only [if_true, pure_ok, bind_ok]
            refine noOF_bind (previous_ne_ofl _) ?_
            intro tk htk
            exact ok_ne_ofl _
        · simp only [if_true]
          exact ok_ne_ofl _
      · simp only [if_true]
        exact ok_ne_ofl _

/-! ### Parse-level corollaries -/

/-- `parse` never exhausts its fuel: `bigFuel` is adequate.  This is the
embedding's rendering of the C++ parser's termination on every input. -/
theorem parse_ne_ofl (tokens : List Token) :
    parse tokens ≠ .error .OutOfFuel := by
  unfold parse
  refine noOF_bind ?_ ?_
  · exact (fuelAll (bigFuel tokens)).1 ⟨tokens, 0⟩ [] (Nat.zero_le _)
      (show 12 * (tokens.length - 0) + 10 ≤ 12 * tokens.length + 20 by omega)
  · rintro ⟨stmts, s⟩ hx
    exact ok_ne_ofl _

/-- With an `Eof` sentinel anywhere in the sequence, `parse` never reads
out of bounds. -/
theorem parse_ne_oob {tokens : List Token} {k : Nat} {tok : Token}
    (hget : tokens[k]? = some tok) (htype : tok.type = TokenType.Eof) :
    parse tokens ≠ .error .OutOfBounds := by
  unfold parse
  intro hc
  cases hpl : parseLoop (bigFuel tokens) ⟨tokens, 0⟩ [] with
  | error e =>
    rw [hpl, bind_err] at hc
    have he := Except.error.inj hc
    rw [he] at hpl
    exact (parseLoop_step (bigFuel tokens) ⟨tokens, 0⟩ [] (Nat.zero_le _)).2 k
      ⟨Nat.zero_le _, tok, hget, htype⟩ hpl
  | ok p =>
    obtain ⟨stmts, s⟩ := p
    rw [hpl, bind_ok] at hc
    exact absurd hc (by simp)

/-! ### Small characterisations of the primitives used by the claims -/

theorem peek_ok_inv {s : ParserState} {tok : Token}
    (h : peek s = .ok tok) : s.tokens[s.current]? = some tok := by
  unfold peek at h
  cases hg : s.tokens[s.current]? with
  | some tk =>
    rw [hg] at h
    have htk : tk = tok := Except.ok.inj h
    exact congrArg some htk
  | none =>
    rw [hg] at h
    exact absurd h (by simp)

theorem canMatch_ne {s : ParserState} {t : TokenType} {tok : Token}
    (hget : s.tokens[s.current]? = some tok) (hne : tok.type ≠ t) :
    canMatch s t = false := by
  unfold canMatch
  rw [hget]
  simp only [decide_eq_false_iff_not]
  intro hc
  exact hne hc.1

theorem canMatch_eof {s : ParserState} {t : TokenType} {tok : Token}
    (hget : s.tokens[s.current]? = some tok) (h : tok.type = TokenType.Eof) :
    canMatch s t = false := by
  unfold canMatch
  rw [hget]
  simp only [decide_eq_false_iff_not]
  rintro ⟨h1, h2⟩
  rw [h] at h1
  exact h2 h1.symm

theorem canMatch_true_intro {s : ParserState} {t : TokenType} {tok : Token}
    (hget : s.tokens[s.current]? = some tok) (htt : tok.type = t)
    (hne : t ≠ TokenType.Eof) : canMatch s t = true :=
  (canMatch_iff s t).mpr ⟨tok, hget, htt, hne⟩

theorem atEndB_false_inv {s : ParserState} (h : atEndB s = false) :
    s.current < s.tokens.length ∧
      ∃ tok, s.tokens[s.current]? = some tok ∧ tok.type ≠ TokenType.Eof := by
  unfold atEndB at h
  rcases Bool.or_eq_false_iff.mp h with ⟨h1, h2⟩
  have hlt : s.current < s.tokens.length := by
    simpa using h1
  have hget : s.tokens[s.current]? = some s.tokens[s.current] :=
    List.getElem?_eq_getElem hlt
  rw [hget] at h2
  exact ⟨hlt, s.tokens[s.current], hget, by simpa using h2⟩

/-! ### The claims -/

/-- Claim C1, counterexample: a single `Number` token followed directly by
`Eof` (no `Semicolon`) makes `parse` throw from
`Parser::expressionStatement`'s `consume(Semicolon, ...)` — it does not
return an `ExpressionStmt`. -/
theorem c1_counterexample :
    parse [⟨TokenType.Number, "1", LitValue.num 1⟩,
      ⟨TokenType.Eof, "", LitValue.null⟩] =
      .error (.SyntaxError "Expect \x27;\x27 afer expression") := by rfl

set_option maxHeartbeats 8000000 in
/-- Claim C1, amended: for every token sequence consisting of a single
`Number` token, a `Semicolon`, and an `Eof` token, `parse` returns exactly
one `ExpressionStmt` wrapping a `LiteralExpr` carrying that number's
literal value (for all lexemes and literal payloads of the three tokens). -/
theorem c1_amended (lex lexS lexE : String) (lit litS litE : LitValue) :
    parse [⟨TokenType.Number, lex, lit⟩, ⟨TokenType.Semicolon, lexS, litS⟩,
      ⟨TokenType.Eof, lexE, litE⟩] =
      .ok [Stmt.ExpressionStmt (Expr.LiteralExpr lit)] := by rfl

set_option maxHeartbeats 16000000 in
/-- Claim C4: the tokens of `1 - 2 - 3 ;` (followed by `Eof`) parse to the
left-nested tree `Binary(Binary(1, '-', 2), '-', 3)`: binary operators at
one precedence level associate to the left. -/
theorem c4_left_assoc :
    parse [⟨TokenType.Number, "1", LitValue.num 1⟩,
      ⟨TokenType.Minus, "-", LitValue.null⟩,
      ⟨TokenType.Number, "2", LitValue.num 2⟩,
      ⟨TokenType.Minus, "-", LitValue.null⟩,
      ⟨TokenType.Number, "3", LitValue.num 3⟩,
      ⟨TokenType.Semicolon, ";", LitValue.null⟩,
      ⟨TokenType.Eof, "", LitValue.null⟩] =
      .ok [Stmt.ExpressionStmt (Expr.BinaryExpr
        (Expr.BinaryExpr (Expr.LiteralExpr (LitValue.num 1))
          ⟨TokenType.Minus, "-", LitValue.null⟩
          (Expr.LiteralExpr (LitValue.num 2)))
        ⟨TokenType.Minus, "-", LitValue.null⟩
        (Expr.LiteralExpr (LitValue.num 3)))] := by rfl

set_option maxHeartbeats 16000000 in
/-- Claim C5: the tokens of `1 + 2 * 3 ;` (followed by `Eof`) parse to
`Binary(1, '+', Binary(2, '*', 3))`: multiplicative operators bind tighter
than additive ones. -/
theorem c5_precedence :
    parse [⟨TokenType.Number, "1", LitValue.num 1⟩,
      ⟨TokenType.Plus, "+", LitValue.null⟩,
      ⟨TokenType.Number, "2", LitValue.num 2⟩,
      ⟨TokenType.Star, "*", LitValue.null⟩,
      ⟨TokenType.Number, "3", LitValue.num 3⟩,
      ⟨TokenType.Semicolon, ";", LitValue.null⟩,
      ⟨TokenType.Eof, "", LitValue.null⟩] =
      .ok [Stmt.ExpressionStmt (Expr.BinaryExpr
        (Expr.LiteralExpr (LitValue.num 1))
        ⟨TokenType.Plus, "+", LitValue.null⟩
        (Expr.BinaryExpr (Expr.LiteralExpr (LitValue.num 2))
          ⟨TokenType.Star, "*", LitValue.null⟩
          (Expr.LiteralExpr (LitValue.num 3))))] := by rfl

/-- Claim C9: for every parser state and token kind, `check` never raises
(and, being a pure function of the state in this embedding, touches no
parser state), and `match` returns exactly `check`'s answer, advancing the
cursor by one position on true and leaving the whole state (cursor and
token sequence) untouched on false. -/
theorem c9_check_match (s : ParserState) (t : TokenType) :
    ∃ b, check s t = .ok b ∧
      matchT s t = .ok (b,
        if b then (⟨s.tokens, s.current + 1⟩ : ParserState) else s) :=
  ⟨canMatch s t, check_eq s t, matchT_eq s t⟩

/-- Claim C2, counterexample: on the token sequence `[Print]` with no
trailing `Eof` sentinel, `parse` reaches `Parser::primary` with the cursor
one past the end of the sequence, and the unchecked `peek()` in its throw
path reads `tokens[1]` out of bounds. -/
theorem c2_counterexample :
    parse [⟨TokenType.Print, "print", LitValue.null⟩] =
      .error PErr.OutOfBounds := by rfl

/-- Claim C2, amended: whenever the token sequence carries an `Eof` token
(the spec's input contract), `parse` never reads out of bounds; without the
sentinel the error-reporting `peek()` in `Parser::primary` can (see the
counterexample). -/
theorem c2_amended_no_oob (tokens : List Token) (k : Nat) (tok : Token)
    (hget : tokens[k]? = some tok) (htype : tok.type = TokenType.Eof) :
    parse tokens ≠ .error PErr.OutOfBounds :=
  parse_ne_oob hget htype

/-- Claim C2, witness for the amended theorem at a concrete sequence. -/
theorem c2_amended_witness :
    parse [⟨TokenType.Eof, "", LitValue.null⟩] ≠ .error PErr.OutOfBounds :=
  c2_amended_no_oob [⟨TokenType.Eof, "", LitValue.null⟩] 0
    ⟨TokenType.Eof, "", LitValue.null⟩ rfl rfl

/-- One unfolding step of `parseLoop` (stated separately so a literal fuel
value can be stepped exactly once). -/
theorem parseLoop_succ (fuel : Nat) (s : ParserState) (acc : List Stmt) :
    parseLoop (fuel + 1) s acc =
      (do
        let e ← atEnd s
        if e then .ok (acc.reverse, s)
        else do
          let (st, s1) ← statement fuel s
          parseLoop fuel s1 (st :: acc)) := rfl

/-- The token sequence of `if 1 if 2 print 3; else print 4;` followed by
`Eof` — the nested-`if` dangling-`else` example of claim C7. -/
def c7tokens : List Token :=
  [⟨TokenType.If, "if", LitValue.null⟩, ⟨TokenType.Number, "1", LitValue.num 1⟩,
   ⟨TokenType.If, "if", LitValue.null⟩, ⟨TokenType.Number, "2", LitValue.num 2⟩,
   ⟨TokenType.Print, "print", LitValue.null⟩, ⟨TokenType.Number, "3", LitValue.num 3⟩,
   ⟨TokenType.Semicolon, ";", LitValue.null⟩, ⟨TokenType.Else, "else", LitValue.null⟩,
   ⟨TokenType.Print, "print", LitValue.null⟩, ⟨TokenType.Number, "4", LitValue.num 4⟩,
   ⟨TokenType.Semicolon, ";", LitValue.null⟩, ⟨TokenType.Eof, "", LitValue.null⟩]

set_option maxHeartbeats 8000000 in
/-- Claim C7: in the nested-`if` example with a single `else`, the `else`
branch attaches to the innermost `if`: the outer `IfStmt` has no else
branch and the inner `IfStmt` carries it. -/
theorem c7_dangling_else :
    parse c7tokens =
      .ok [Stmt.IfStmt (Expr.LiteralExpr (LitValue.num 1))
        (Stmt.IfStmt (Expr.LiteralExpr (LitValue.num 2))
          (Stmt.PrintStmt (Expr.LiteralExpr (LitValue.num 3)))
          (some (Stmt.PrintStmt (Expr.LiteralExpr (LitValue.num 4)))))
        none] := by
  have hA2 : expr 159 (⟨c7tokens, 3⟩ : ParserState) =
      .ok (Expr.LiteralExpr (LitValue.num 2), ⟨c7tokens, 4⟩) := by rfl
  have hA3 : statement 159 (⟨c7tokens, 4⟩ : ParserState) =
      .ok (Stmt.PrintStmt (Expr.LiteralExpr (LitValue.num 3)), ⟨c7tokens, 7⟩) := by rfl
  have hA4 : statement 159 (⟨c7tokens, 8⟩ : ParserState) =
      .ok (Stmt.PrintStmt (Expr.LiteralExpr (LitValue.num 4)), ⟨c7tokens, 11⟩) := by rfl
  have hB1 : IfStatement 160 (⟨c7tokens, 3⟩ : ParserState) =
      .ok (Stmt.IfStmt (Expr.LiteralExpr (LitValue.num 2))
        (Stmt.PrintStmt (Expr.LiteralExpr (LitValue.num 3)))
        (some (Stmt.PrintStmt (Expr.LiteralExpr (LitValue.num 4)))), ⟨c7tokens, 11⟩) := by
    show IfStatement (159 + 1) ⟨c7tokens, 3⟩ = _
    simp only [IfStatement]
    rw [hA2, bind_ok, hA3, bind_ok, matchT_eq_true (by rfl), bind_ok]
    simp only [if_true, Nat.reduceAdd]
    rw [hA4, bind_ok]
  have hB2 : statement 161 (⟨c7tokens, 2⟩ : ParserState) =
      .ok (Stmt.IfStmt (Expr.LiteralExpr (LitValue.num 2))
        (Stmt.PrintStmt (Expr.LiteralExpr (LitValue.num 3)))
        (some (Stmt.PrintStmt (Expr.LiteralExpr (LitValue.num 4)))), ⟨c7tokens, 11⟩) := by
    show statement (160 + 1) ⟨c7tokens, 2⟩ = _
    simp only [statement]
    rw [matchT_eq_false (by rfl), bind_ok]
    simp only [Bool.false_eq_true, if_false]
    rw [matchT_eq_true (by rfl), bind_ok]
    simp only [if_true, Nat.reduceAdd]
    exact hB1
  have hA1 : expr 161 (⟨c7tokens, 1⟩ : ParserState) =
      .ok (Expr.LiteralExpr (LitValue.num 1), ⟨c7tokens, 2⟩) := by rfl
  have hB3 : IfStatement 162 (⟨c7tokens, 1⟩ : ParserState) =
      .ok (Stmt.IfStmt (Expr.LiteralExpr (LitValue.num 1))
        (Stmt.IfStmt (Expr.LiteralExpr (LitValue.num 2))
          (Stmt.PrintStmt (Expr.LiteralExpr (LitValue.num 3)))
          (some (Stmt.PrintStmt (Expr.LiteralExpr (LitValue.num 4)))))
        none, ⟨c7tokens, 11⟩) := by
    show IfStatement (161 + 1) ⟨c7tokens, 1⟩ = _
    simp only [IfStatement]
    rw [hA1, bind_ok, hB2, bind_ok, matchT_eq_false (by rfl), bind_ok]
    simp only [Bool.false_eq_true, if_false]
  have hB4 : statement 163 (⟨c7tokens, 0⟩ : ParserState) =
      .ok (Stmt.IfStmt (Expr.LiteralExpr (LitValue.num 1))
        (Stmt.IfStmt (Expr.LiteralExpr (LitValue.num 2))
          (Stmt.PrintStmt (Expr.LiteralExpr (LitValue.num 3)))
          (some (Stmt.PrintStmt (Expr.LiteralExpr (LitValue.num 4)))))
        none, ⟨c7tokens, 11⟩) := by
    show statement (162 + 1) ⟨c7tokens, 0⟩ = _
    simp only [statement]
    rw [matchT_eq_false (by rfl), bind_ok]
    simp only [Bool.false_eq_true, if_false]
    rw [matchT_eq_true (by rfl), bind_ok]
    simp only [if_true, Nat.reduceAdd]
    exact hB3
  have hB5 : parseLoop 163 (⟨c7tokens, 11⟩ : ParserState)
      [Stmt.IfStmt (Expr.LiteralExpr (LitValue.num 1))
        (Stmt.IfStmt (Expr.LiteralExpr (LitValue.num 2))
          (Stmt.PrintStmt (Expr.LiteralExpr (LitValue.num 3)))
          (some (Stmt.PrintStmt (Expr.LiteralExpr (LitValue.num 4)))))
        none] =
      .ok ([Stmt.IfStmt (Expr.LiteralExpr (LitValue.num 1))
        (Stmt.IfStmt (Expr.LiteralExpr (LitValue.num 2))
          (Stmt.PrintStmt (Expr.LiteralExpr (LitValue.num 3)))
          (some (Stmt.PrintStmt (Expr.LiteralExpr (LitValue.num 4)))))
        none], ⟨c7tokens, 11⟩) := by rfl
  have hB6 : parseLoop 164 (⟨c7tokens, 0⟩ : ParserState) [] =
      .ok ([Stmt.IfStmt (Expr.LiteralExpr (LitValue.num 1))
        (Stmt.IfStmt (Expr.LiteralExpr (LitValue.num 2))
          (Stmt.PrintStmt (Expr.LiteralExpr (LitValue.num 3)))
          (some (Stmt.PrintStmt (Expr.LiteralExpr (LitValue.num 4)))))
        none], ⟨c7tokens, 11⟩) := by
    rw [show (164 : Nat) = 163 + 1 from rfl, parseLoop_succ]
    rw [atEnd_eq, bind_ok, show atEndB ⟨c7tokens, 0⟩ = false from rfl]
    simp only [Bool.false_eq_true, if_false]
    rw [hB4, bind_ok]
    exact hB5
  unfold parse
  rw [show bigFuel c7tokens = 164 from rfl, hB6, bind_ok]

/-! ### Unterminated constructs: claims C3 and C6 -/

/-- One unfolding step of `blockLoop`. -/
theorem blockLoop_succ (fuel : Nat) (s : ParserState) (acc : List Stmt) :
    blockLoop (fuel + 1) s acc =
      (do
        let c ← check s TokenType.RightBrace
        if c then .ok (acc.reverse, s)
        else do
          let (st, s1) ← statement fuel s
          blockLoop fuel s1 (st :: acc)) := rfl

theorem invK_le_len {k : Nat} {s : ParserState} (h : InvK k s) :
    s.current ≤ s.tokens.length := by
  obtain ⟨hck, tok, hget, -⟩ := h
  exact le_of_lt (Nat.lt_of_le_of_lt hck (List.getElem?_eq_some_iff.mp hget).1)

/-- Inside a block whose remaining tokens contain no `}` before the `Eof`
sentinel, `Parser::blockStmt`'s scan loop can never return normally: for
every fuel it ends in an error. -/
theorem blockLoop_noRB (k : Nat) : ∀ (fuel : Nat) (s : ParserState) (acc : List Stmt),
    InvK k s →
    (∀ j tok, j < k → s.tokens[j]? = some tok → tok.type ≠ TokenType.RightBrace) →
    ∃ e, blockLoop fuel s acc = .error e := by
  intro fuel
  induction fuel with
  | zero => exact fun s acc _ _ => ⟨.OutOfFuel, rfl⟩
  | succ fuel ih =>
    intro s acc hInv hnorb
    have hlen : s.current ≤ s.tokens.length := invK_le_len hInv
    have hcm : canMatch s TokenType.RightBrace = false := by
      rcases Nat.lt_or_ge s.current k with hlt | hge
      · obtain ⟨tok, hget⟩ := invK_peek hInv
        exact canMatch_ne hget (hnorb _ tok hlt hget)
      · have hek : s.current = k := Nat.le_antisymm hInv.1 hge
        obtain ⟨-, tk, hgetk, htk⟩ := hInv
        have hget : s.tokens[s.current]? = some tk := by rw [hek]; exact hgetk
        exact canMatch_eof hget htk
    have hexp : blockLoop (fuel + 1) s acc =
        statement fuel s >>= fun p => blockLoop fuel p.2 (p.1 :: acc) := by
      rw [blockLoop_succ, check_eq, bind_ok, hcm]
      simp only [Bool.false_eq_true, if_false]
    cases hst : statement fuel s with
    | error e => exact ⟨e, by rw [hexp, hst, bind_err]⟩
    | ok p =>
      obtain ⟨st, s1⟩ := p
      have hm := (statement_step fuel s hlen).1 st s1 hst
      obtain ⟨e, he⟩ := ih s1 (st :: acc) (invK_mono hm.1 hInv)
        (fun j tok hj hget => hnorb j tok hj (by rw [← hm.1.1]; exact hget))
      exact ⟨e, by rw [hexp, hst, bind_ok]; exact he⟩

/-- `Parser::statement` invoked at an opening `{` with no `}` before the
`Eof` sentinel always ends in an error. -/
theorem statement_lbrace_noRB (k : Nat) (fuel : Nat) (s : ParserState)
    (hInv : InvK k s)
    (hlb : canMatch s TokenType.LeftBrace = true)
    (hnorb : ∀ j tok, j < k → s.tokens[j]? = some tok → tok.type ≠ TokenType.RightBrace) :
    ∃ e, statement (fuel + 2) s = .error e := by
  obtain ⟨tok, hget, htt, -⟩ := (canMatch_iff s TokenType.LeftBrace).mp hlb
  have hP : canMatch s TokenType.Print = false :=
    canMatch_ne hget (by rw [htt]; decide)
  have hI : canMatch s TokenType.If = false :=
    canMatch_ne hget (by rw [htt]; decide)
  have hlen : s.current ≤ s.tokens.length := invK_le_len hInv
  have hexp : statement (fuel + 2) s =
      blockStmt (fuel + 1) ⟨s.tokens, s.current + 1⟩ := by
    show statement ((fuel + 1) + 1) s = _
    simp only [statement]
    rw [matchT_eq, bind_ok, hP]
    simp only [Bool.false_eq_true, if_false]
    rw [matchT_eq, bind_ok, hI]
    simp only [Bool.false_eq_true, if_false]
    rw [matchT_eq, bind_ok, hlb]
    simp only [if_true]
  obtain ⟨e, he⟩ := blockLoop_noRB k fuel ⟨s.tokens, s.current + 1⟩ []
    (invK_mono (mono_bump hlb hlen) hInv) hnorb
  refine ⟨e, ?_⟩
  rw [hexp]
  show blockLoop fuel ⟨s.tokens, s.current + 1⟩ [] >>= _ = _
  rw [he, bind_err]

/-- Claim C3: a token sequence that opens with `{` and, up to its `Eof`
sentinel, never contains a `}` — an unterminated block — makes `parse`
terminate with a `SyntaxError` (for any block contents): it neither loops
forever (no fuel exhaustion at `bigFuel`) nor runs out of bounds. -/
theorem c3_unterminated_block (tokens : List Token) (k : Nat) (lb eof : Token)
    (h0 : tokens[0]? = some lb) (hlb : lb.type = TokenType.LeftBrace)
    (hk : tokens[k]? = some eof) (heof : eof.type = TokenType.Eof)
    (hnorb : ∀ j tok, j < k → tokens[j]? = some tok →
      tok.type ≠ TokenType.RightBrace) :
    ∃ msg, parse tokens = .error (.SyntaxError msg) := by
  have hlen0 : 0 < tokens.length := (List.getElem?_eq_some_iff.mp h0).1
  have hInv0 : InvK k ⟨tokens, 0⟩ := ⟨Nat.zero_le _, eof, hk, heof⟩
  have hAtEnd : atEndB ⟨tokens, 0⟩ = false := by
    unfold atEndB
    rw [show (⟨tokens, 0⟩ : ParserState).tokens[(⟨tokens, 0⟩ : ParserState).current]? =
      some lb from h0]
    simp [Nat.not_le.mpr hlen0, hlb]
  have hlbcm : canMatch ⟨tokens, 0⟩ TokenType.LeftBrace = true :=
    canMatch_true_intro h0 hlb (by decide)
  obtain ⟨e, he⟩ := statement_lbrace_noRB k (12 * tokens.length + 17)
    ⟨tokens, 0⟩ hInv0 hlbcm hnorb
  have hpl : parseLoop (bigFuel tokens) ⟨tokens, 0⟩ [] = .error e := by
    rw [show bigFuel tokens = (12 * tokens.length + 19) + 1 from by unfold bigFuel; omega]
    rw [parseLoop_succ, atEnd_eq, bind_ok, hAtEnd]
    simp only [Bool.false_eq_true, if_false]
    rw [show (12 * tokens.length + 19 : Nat) = (12 * tokens.length + 17) + 2 from by omega]
    rw [he, bind_err]
  have hperr : parse tokens = .error e := by
    unfold parse
    rw [hpl, bind_err]
  cases e with
  | SyntaxError msg => exact ⟨msg, hperr⟩
  | OutOfBounds => exact absurd hperr (parse_ne_oob hk heof)
  | OutOfFuel => exact absurd hperr (parse_ne_ofl tokens)

/-- Claim C3, witness: the spec's example `{ print 1;` followed by `Eof`. -/
theorem c3_witness :
    ∃ msg, parse [⟨TokenType.LeftBrace, "\x7b", LitValue.null⟩,
      ⟨TokenType.Print, "print", LitValue.null⟩,
      ⟨TokenType.Number, "1", LitValue.num 1⟩,
      ⟨TokenType.Semicolon, ";", LitValue.null⟩,
      ⟨TokenType.Eof, "", LitValue.null⟩] = .error (.SyntaxError msg) := by
  refine c3_unterminated_block _ 4 ⟨TokenType.LeftBrace, "\x7b", LitValue.null⟩
    ⟨TokenType.Eof, "", LitValue.null⟩ rfl rfl rfl rfl ?_
  intro j tok hj hget
  interval_cases j <;>
    simp only [List.getElem?_cons_zero, List.getElem?_cons_succ] at hget <;>
    rw [← Option.some.inj hget] <;> decide

/-- `Parser::unary` invoked at an opening `(` with no `)` before the `Eof`
sentinel always ends in an error: if the inner expression parses, the
mandatory `consume(RightParen, "Expected ')'")` throws. -/
theorem unary_unclosed (k : Nat) (fuel : Nat) (s : ParserState)
    (hInv : InvK k s)
    (hlp : canMatch s TokenType.LeftParen = true)
    (hnorp : ∀ j tok, j < k → s.tokens[j]? = some tok →
      tok.type ≠ TokenType.RightParen) :
    ∃ e, unary (fuel + 1) s = .error e := by
  obtain ⟨tok, hget, htt, -⟩ := (canMatch_iff s TokenType.LeftParen).mp hlp
  have hPl : canMatch s TokenType.Plus = false :=
    canMatch_ne hget (by rw [htt]; decide)
  have hMi : canMatch s TokenType.Minus = false :=
    canMatch_ne hget (by rw [htt]; decide)
  have hlen : s.current ≤ s.tokens.length := invK_le_len hInv
  have hexp : unary (fuel + 1) s =
      (do
        let (e, s5) ← expr fuel (⟨s.tokens, s.current + 1⟩ : ParserState)
        let s6 ← consume s5 TokenType.RightParen "Expected \x27)\x27"
        .ok (e, s6)) := by
    simp only [unary]
    rw [matchT_eq, bind_ok, hPl]
    simp only [Bool.false_eq_true, if_false, pure_ok]
    rw [matchT_eq, bind_ok, hMi]
    simp only [Bool.false_eq_true, if_false]
    rw [matchT_eq, bind_ok, hlp]
    simp only [if_true]
  cases hx : expr fuel (⟨s.tokens, s.current + 1⟩ : ParserState) with
  | error e => exact ⟨e, by rw [hexp, hx, bind_err]⟩
  | ok p =>
    obtain ⟨e2, s5⟩ := p
    have hm := (expr_step fuel ⟨s.tokens, s.current + 1⟩
      (canMatch_lt hlp)).1 e2 s5 hx
    have hInv5 : InvK k s5 := invK_mono hm.1 (invK_mono (mono_bump hlp hlen) hInv)
    have hcm : canMatch s5 TokenType.RightParen = false := by
      rcases Nat.lt_or_ge s5.current k with hlt | hge
      · obtain ⟨tok5, hget5⟩ := invK_peek hInv5
        refine canMatch_ne hget5 (hnorp _ tok5 hlt ?_)
        rw [← show s5.tokens = s.tokens from hm.1.1.trans rfl]
        exact hget5
      · have hek : s5.current = k := Nat.le_antisymm hInv5.1 hge
        obtain ⟨-, tk, hgetk, htk⟩ := hInv5
        have hget5 : s5.tokens[s5.current]? = some tk := by rw [hek]; exact hgetk
        exact canMatch_eof hget5 htk
    refine ⟨.SyntaxError "Expected \x27)\x27", ?_⟩
    rw [hexp, hx, bind_ok]
    show consume s5 TokenType.RightParen "Expected \x27)\x27" >>= _ = _
    rw [consume_eq_false _ hcm, bind_err]

/-- `Parser::expr` (the whole expression chain) at an opening `(` whose `)`
never comes before `Eof` ends in an error. -/
theorem expr_unclosed (k : Nat) (fuel : Nat) (s : ParserState)
    (hInv : InvK k s)
    (hlp : canMatch s TokenType.LeftParen = true)
    (hnorp : ∀ j tok, j < k → s.tokens[j]? = some tok →
      tok.type ≠ TokenType.RightParen) :
    ∃ e, expr (fuel + 6) s = .error e := by
  obtain ⟨e, heU⟩ := unary_unclosed k fuel s hInv hlp hnorp
  have hF : factor (fuel + 2) s = .error e := by
    show factor ((fuel + 1) + 1) s = _
    simp only [factor]
    rw [heU, bind_err]
  have hT : term (fuel + 3) s = .error e := by
    show term ((fuel + 2) + 1) s = _
    simp only [term]
    rw [hF, bind_err]
  have hC : comparison (fuel + 4) s = .error e := by
    show comparison ((fuel + 3) + 1) s = _
    simp only [comparison]
    rw [hT, bind_err]
  have hQ : equality (fuel + 5) s = .error e := by
    show equality ((fuel + 4) + 1) s = _
    simp only [equality]
    rw [hC, bind_err]
  refine ⟨e, ?_⟩
  show expr ((fuel + 5) + 1) s = _
  simp only [expr]
  exact hQ

/-- `Parser::statement` at an opening `(` whose `)` never comes before
`Eof` ends in an error. -/
theorem statement_unclosed (k : Nat) (fuel : Nat) (s : ParserState)
    (hInv : InvK k s)
    (hlp : canMatch s TokenType.LeftParen = true)
    (hnorp : ∀ j tok, j < k → s.tokens[j]? = some tok →
      tok.type ≠ TokenType.RightParen) :
    ∃ e, statement (fuel + 8) s = .error e := by
  obtain ⟨tok, hget, htt, -⟩ := (canMatch_iff s TokenType.LeftParen).mp hlp
  have hP : canMatch s TokenType.Print = false :=
    canMatch_ne hget (by rw [htt]; decide)
  have hI : canMatch s TokenType.If = false :=
    canMatch_ne hget (by rw [htt]; decide)
  have hB : canMatch s TokenType.LeftBrace = false :=
    canMatch_ne hget (by rw [htt]; decide)
  obtain ⟨e, heE⟩ := expr_unclosed k fuel s hInv hlp hnorp
  have hexp : statement (fuel + 8) s =
      expressionStatement (fuel + 7) s := by
    show statement ((fuel + 7) + 1) s = _
    simp only [statement]
    rw [matchT_eq, bind_ok, hP]
    simp only [Bool.false_eq_true, if_false]
    rw [matchT_eq, bind_ok, hI]
    simp only [Bool.false_eq_true, if_false]
    rw [matchT_eq, bind_ok, hB]
    simp only [Bool.false_eq_true, if_false]
  refine ⟨e, ?_⟩
  rw [hexp]
  show expressionStatement ((fuel + 6) + 1) s = _
  simp only [expressionStatement]
  rw [heE, bind_err]

/-- Claim C6: a token sequence that opens with `(` and, up to its `Eof`
sentinel, never contains a `)` — an unterminated parenthesised expression —
makes `parse` raise a `SyntaxError` and return no statement sequence (the
result is an error, never a partial program). -/
theorem c6_unclosed_paren (tokens : List Token) (k : Nat) (lp eof : Token)
    (h0 : tokens[0]? = some lp) (hlp : lp.type = TokenType.LeftParen)
    (hk : tokens[k]? = some eof) (heof : eof.type = TokenType.Eof)
    (hnorp : ∀ j tok, j < k → tokens[j]? = some tok →
      tok.type ≠ TokenType.RightParen) :
    ∃ msg, parse tokens = .error (.SyntaxError msg) := by
  have hlen0 : 0 < tokens.length := (List.getElem?_eq_some_iff.mp h0).1
  have hInv0 : InvK k ⟨tokens, 0⟩ := ⟨Nat.zero_le _, eof, hk, heof⟩
  have hAtEnd : atEndB ⟨tokens, 0⟩ = false := by
    unfold atEndB
    rw [show (⟨tokens, 0⟩ : ParserState).tokens[(⟨tokens, 0⟩ : ParserState).current]? =
      some lp from h0]
    simp [Nat.not_le.mpr hlen0, hlp]
  have hlpcm : canMatch ⟨tokens, 0⟩ TokenType.LeftParen = true :=
    canMatch_true_intro h0 hlp (by decide)
  obtain ⟨e, he⟩ := statement_unclosed k (12 * tokens.length + 11)
    ⟨tokens, 0⟩ hInv0 hlpcm hnorp
  have hpl : parseLoop (bigFuel tokens) ⟨tokens, 0⟩ [] = .error e := by
    rw [show bigFuel tokens = (12 * tokens.length + 19) + 1 from by unfold bigFuel; omega]
    rw [parseLoop_succ, atEnd_eq, bind_ok, hAtEnd]
    simp only [Bool.false_eq_true, if_false]
    rw [show (12 * tokens.length + 19 : Nat) = (12 * tokens.length + 11) + 8 from by omega]
    rw [he, bind_err]
  have hperr : parse tokens = .error e := by
    unfold parse
    rw [hpl, bind_err]
  cases e with
  | SyntaxError msg => exact ⟨msg, hperr⟩
  | OutOfBounds => exact absurd hperr (parse_ne_oob hk heof)
  | OutOfFuel => exact absurd hperr (parse_ne_ofl tokens)

/-- Claim C6, witness: the spec's example `(1 + 2` followed by `Eof`. -/
theorem c6_witness :
    ∃ msg, parse [⟨TokenType.LeftParen, "(", LitValue.null⟩,
      ⟨TokenType.Number, "1", LitValue.num 1⟩,
      ⟨TokenType.Plus, "+", LitValue.null⟩,
      ⟨TokenType.Number, "2", LitValue.num 2⟩,
      ⟨TokenType.Eof, "", LitValue.null⟩] = .error (.SyntaxError msg) := by
  refine c6_unclosed_paren _ 4 ⟨TokenType.LeftParen, "(", LitValue.null⟩
    ⟨TokenType.Eof, "", LitValue.null⟩ rfl rfl rfl rfl ?_
  intro j tok hj hget
  interval_cases j <;>
    simp only [List.getElem?_cons_zero, List.getElem?_cons_succ] at hget <;>
    rw [← Option.some.inj hget] <;> decide

/-- Claim C8: across every cursor-moving parser primitive the cursor is
monotone non-decreasing, advances by at most one, never passes the
sequence's size, and the token sequence itself is untouched; once the
cursor sits on an `Eof` token, `match` answers false leaving the state
fixed, and `advance` either returns with the state fixed (so `peek` keeps
returning the same `Eof` token) or, at cursor 0, reproduces the C++
out-of-bounds read of `tokens[current - 1]`. -/
theorem c8_cursor_monotone (s : ParserState) (t : TokenType) (msg : String) :
    (∀ b s', matchT s t = .ok (b, s') →
      s.current ≤ s'.current ∧ s'.current ≤ s.current + 1 ∧ s'.tokens = s.tokens ∧
      (s'.current = s.current ∨
        (s.current < s.tokens.length ∧ s'.current ≤ s.tokens.length))) ∧
    (∀ tk s', advance s = .ok (tk, s') →
      s.current ≤ s'.current ∧ s'.current ≤ s.current + 1 ∧ s'.tokens = s.tokens ∧
      (s'.current = s.current ∨
        (s.current < s.tokens.length ∧ s'.current ≤ s.tokens.length))) ∧
    (∀ s', consume s t msg = .ok s' →
      s.current ≤ s'.current ∧ s'.current ≤ s.current + 1 ∧
      s.current < s.tokens.length ∧ s'.current ≤ s.tokens.length) ∧
    (∀ tok, peek s = .ok tok → tok.type = TokenType.Eof →
      matchT s t = .ok (false, s) ∧
      ((s.current = 0 ∧ advance s = .error .OutOfBounds) ∨
        ∃ tk, advance s = .ok (tk, s))) := by
  refine ⟨?_, ?_, ?_, ?_⟩
  · intro b s' h
    obtain ⟨-, hs'⟩ := matchT_ok_inv h
    cases hc : canMatch s t
    · rw [hc] at hs'
      simp only [Bool.false_eq_true, if_false] at hs'
      subst hs'
      exact ⟨le_refl _, Nat.le_succ _, rfl, Or.inl rfl⟩
    · rw [hc] at hs'
      simp only [if_true] at hs'
      subst hs'
      exact ⟨Nat.le_succ _, le_refl _, rfl,
        Or.inr ⟨canMatch_lt hc, canMatch_lt hc⟩⟩
  · intro tk s' h
    unfold advance at h
    rw [atEnd_eq, bind_ok] at h
    cases hE : atEndB s
    · rw [hE] at h
      simp only [Bool.false_eq_true, if_false] at h
      obtain ⟨hlt, tok, hget, -⟩ := atEndB_false_inv hE
      rw [show ({ s with current := s.current + 1 } : ParserState) =
        ⟨s.tokens, s.current + 1⟩ from rfl, previous_succ hget, bind_ok] at h
      have hs' := congrArg Prod.snd (Except.ok.inj h)
      simp only at hs'
      rw [← hs']
      exact ⟨Nat.le_succ _, le_refl _, rfl, Or.inr ⟨hlt, hlt⟩⟩
    · rw [hE] at h
      simp only [if_true] at h
      cases hp : previous s with
      | error e => rw [hp, bind_err] at h; exact absurd h (by simp)
      | ok tok =>
        rw [hp, bind_ok] at h
        have hs' := congrArg Prod.snd (Except.ok.inj h)
        simp only at hs'
        rw [← hs']
        exact ⟨le_refl _, Nat.le_succ _, rfl, Or.inl rfl⟩
  · intro s' h
    obtain ⟨hc, hs'⟩ := consume_ok_inv h
    subst hs'
    exact ⟨Nat.le_succ _, le_refl _, canMatch_lt hc, canMatch_lt hc⟩
  · intro tok hpk htype
    have hget := peek_ok_inv hpk
    have hcm : canMatch s t = false := canMatch_eof hget htype
    refine ⟨matchT_eq_false hcm, ?_⟩
    have hE : atEndB s = true := by
      unfold atEndB
      rw [hget]
      simp [htype]
    have hadv : advance s = previous s >>= fun tk => .ok (tk, s) := by
      unfold advance
      rw [atEnd_eq, bind_ok, hE]
      simp only [if_true]
    by_cases h0 : s.current = 0
    · refine Or.inl ⟨h0, ?_⟩
      rw [hadv]
      unfold previous
      rw [if_pos h0, bind_err]
    · refine Or.inr ?_
      have hlt : s.current < s.tokens.length :=
        (List.getElem?_eq_some_iff.mp hget).1
      have hlt1 : s.current - 1 < s.tokens.length :=
        Nat.lt_of_le_of_lt (Nat.sub_le _ _) hlt
      have hgetp : s.tokens[s.current - 1]? = some s.tokens[s.current - 1] :=
        List.getElem?_eq_getElem hlt1
      refine ⟨s.tokens[s.current - 1], ?_⟩
      rw [hadv]
      unfold previous
      rw [if_neg h0, hgetp, bind_ok]

/-! ### Claim C10: the parser never builds `VarStmt` or `VariableExpr` -/

/-- True when an expression contains no `VariableExpr` node. -/
def exprNoVar : Expr → Bool
  | .LiteralExpr _ => true
  | .UnaryExpr _ r => exprNoVar r
  | .BinaryExpr l _ r => exprNoVar l && exprNoVar r
  | .VariableExpr _ => false

mutual

/-- True when a statement contains no `VarStmt` and no `VariableExpr`. -/
def stmtNoVar : Stmt → Bool
  | .ExpressionStmt e => exprNoVar e
  | .PrintStmt e => exprNoVar e
  | .VarStmt _ _ => false
  | .IfStmt c th o => exprNoVar c && stmtNoVar th && stmtONoVar o
  | .BlockStmt l => stmtsNoVar l

/-- `stmtNoVar` over an optional else branch. -/
def stmtONoVar : Option Stmt → Bool
  | some st => stmtNoVar st
  | none => true

/-- `stmtNoVar` over every statement of a list. -/
def stmtsNoVar : List Stmt → Bool
  | [] => true
  | st :: rest => stmtNoVar st && stmtsNoVar rest

end

theorem stmtsNoVar_iff (l : List Stmt) :
    stmtsNoVar l = true ↔ ∀ st ∈ l, stmtNoVar st = true := by
  induction l with
  | nil => simp [stmtsNoVar]
  | cons st rest ih => simp [stmtsNoVar, ih]

theorem bind_ok_inv {α β : Type} {x : Except PErr α} {f : α → Except PErr β}
    {b : β} (h : (x >>= f) = .ok b) : ∃ a, x = .ok a ∧ f a = .ok b := by
  cases hx : x with
  | error e => rw [hx, bind_err] at h; exact absurd h (by simp)
  | ok a => rw [hx, bind_ok] at h; exact ⟨a, rfl, h⟩

/-- No run of any grammar procedure ever builds a `VarStmt` or
`VariableExpr` node: the parser has no production for them. -/
theorem noVarAll : ∀ fuel : Nat,
    (∀ s acc l s', (∀ st ∈ acc, stmtNoVar st = true) →
      parseLoop fuel s acc = .ok (l, s') → ∀ st ∈ l, stmtNoVar st = true) ∧
    (∀ s st s', statement fuel s = .ok (st, s') → stmtNoVar st = true) ∧
    (∀ s st s', blockStmt fuel s = .ok (st, s') → stmtNoVar st = true) ∧
    (∀ s acc l s', (∀ st ∈ acc, stmtNoVar st = true) →
      blockLoop fuel s acc = .ok (l, s') → ∀ st ∈ l, stmtNoVar st = true) ∧
    (∀ s st s', printStatement fuel s = .ok (st, s') → stmtNoVar st = true) ∧
    (∀ s st s', IfStatement fuel s = .ok (st, s') → stmtNoVar st = true) ∧
    (∀ s st s', expressionStatement fuel s = .ok (st, s') → stmtNoVar st = true) ∧
    (∀ s e s', expr fuel s = .ok (e, s') → exprNoVar e = true) ∧
    (∀ s e s', equality fuel s = .ok (e, s') → exprNoVar e = true) ∧
    (∀ left s e s', exprNoVar left = true →
      equalityLoop fuel left s = .ok (e, s') → exprNoVar e = true) ∧
    (∀ s e s', comparison fuel s = .ok (e, s') → exprNoVar e = true) ∧
    (∀ left s e s', exprNoVar left = true →
      comparisonLoop fuel left s = .ok (e, s') → exprNoVar e = true) ∧
    (∀ s e s', term fuel s = .ok (e, s') → exprNoVar e = true) ∧
    (∀ left s e s', exprNoVar left = true →
      termLoop fuel left s = .ok (e, s') → exprNoVar e = true) ∧
    (∀ s e s', factor fuel s = .ok (e, s') → exprNoVar e = true) ∧
    (∀ left s e s', exprNoVar left = true →
      factorLoop fuel left s = .ok (e, s') → exprNoVar e = true) ∧
    (∀ s e s', unary fuel s = .ok (e, s') → exprNoVar e = true) ∧
    (∀ s e s', primary fuel s = .ok (e, s') → exprNoVar e = true) := by
  intro fuel
  induction fuel with
  | zero =>
    refine ⟨?_, ?_, ?_, ?_, ?_, ?_, ?_, ?_, ?_, ?_, ?_, ?_, ?_, ?_, ?_, ?_, ?_, ?_⟩ <;>
      first
        | (intro s acc l s' hacc hok
           exact absurd hok (by simp [parseLoop, blockLoop]))
        | (intro s st s' hok
           exact absurd hok (by simp [statement, blockStmt, printStatement,
             IfStatement, expressionStatement, expr, equality, comparison,
             term, factor, unary, primary]))
        | (intro left s e s' hl hok
           exact absurd hok (by simp [equalityLoop, comparisonLoop, termLoop,
             factorLoop]))
  | succ fuel ih =>
    obtain ⟨ihPL, ihST, ihBS, ihBL, ihPS, ihIF, ihES, ihEX, ihEQ, ihEQL,
      ihCP, ihCPL, ihTM, ihTML, ihFC, ihFCL, ihUN, ihPR⟩ := ih
    refine ⟨?_, ?_, ?_, ?_, ?_, ?_, ?_, ?_, ?_, ?_, ?_, ?_, ?_, ?_, ?_, ?_, ?_, ?_⟩
    -- parseLoop
    · intro s acc l s' hacc hok
      rw [parseLoop_succ, atEnd_eq, bind_ok] at hok
      cases hE : atEndB s
      · rw [hE] at hok
        simp only [Bool.false_eq_true, if_false] at hok
        obtain ⟨⟨st1, s1⟩, hst, hok2⟩ := bind_ok_inv hok
        refine ihPL s1 (st1 :: acc) l s' ?_ hok2
        intro st2 hmem
        rcases List.mem_cons.mp hmem with h | h
        · rw [h]; exact ihST s st1 s1 hst
        · exact hacc st2 h
      · rw [hE] at hok
        simp only [if_true] at hok
        have hl := congrArg Prod.fst (Except.ok.inj hok)
        simp only at hl
        rw [← hl]
        intro st2 hmem
        exact hacc st2 (List.mem_reverse.mp hmem)
    -- statement
    · intro s st s' hok
      simp only [statement] at hok
      rw [matchT_eq, bind_ok] at hok
      cases h1 : canMatch s TokenType.Print
      · rw [h1] at hok
        simp only [Bool.false_eq_true, if_false] at hok
        rw [matchT_eq, bind_ok] at hok
        cases h2 : canMatch s TokenType.If
        · rw [h2] at hok
          simp only [Bool.false_eq_true, if_false] at hok
          rw [matchT_eq, bind_ok] at hok
          cases h3 : canMatch s TokenType.LeftBrace
          · rw [h3] at hok
            simp only [Bool.false_eq_true, if_false] at hok
            exact ihES s st s' hok
          · rw [h3] at hok
            simp only [if_true] at hok
            exact ihBS _ st s' hok
        · rw [h2] at hok
          simp only [if_true] at hok
          exact ihIF _ st s' hok
      · rw [h1] at hok
        simp only [if_true] at hok
        exact ihPS _ st s' hok
    -- blockStmt
    · intro s st s' hok
      simp only [blockStmt] at hok
      obtain ⟨⟨stmts, s1⟩, hbl, hok2⟩ := bind_ok_inv hok
      obtain ⟨s2, -, hok3⟩ := bind_ok_inv hok2
      have hst := congrArg Prod.fst (Except.ok.inj hok3)
      simp only at hst
      rw [← hst]
      have hall := ihBL s [] stmts s1
        (by intro st2 h; exact absurd h (List.not_mem_nil _)) hbl
      show stmtNoVar (Stmt.BlockStmt stmts) = true
      simp only [stmtNoVar]
      exact (stmtsNoVar_iff stmts).mpr hall
    -- blockLoop
    · intro s acc l s' hacc hok
      rw [blockLoop_succ, check_eq, bind_ok] at hok
      cases hc : canMatch s TokenType.RightBrace
      · rw [hc] at hok
        simp only [Bool.false_eq_true, if_false] at hok
        obtain ⟨⟨st1, s1⟩, hst, hok2⟩ := bind_ok_inv hok
        refine ihBL s1 (st1 :: acc) l s' ?_ hok2
        intro st2 hmem
        rcases List.mem_cons.mp hmem with h | h
        · rw [h]; exact ihST s st1 s1 hst
        · exact hacc st2 h
      · rw [hc] at hok
        simp only [if_true] at hok
        have hl := congrArg Prod.fst (Except.ok.inj hok)
        simp only at hl
        rw [← hl]
        intro st2 hmem
        exact hacc st2 (List.mem_reverse.mp hmem)
    -- printStatement
    · intro s st s' hok
      simp only [printStatement] at hok
      obtain ⟨⟨v, s1⟩, hex, hok2⟩ := bind_ok_inv hok
      obtain ⟨s2, -, hok3⟩ := bind_ok_inv hok2
      have hst := congrArg Prod.fst (Except.ok.inj hok3)
      simp only at hst
      rw [← hst]
      show stmtNoVar (Stmt.PrintStmt v) = true
      simp only [stmtNoVar]
      exact ihEX s v s1 hex
    -- IfStatement
    · intro s st s' hok
      simp only [IfStatement] at hok
      obtain ⟨⟨cond, s1⟩, hex, hok2⟩ := bind_ok_inv hok
      obtain ⟨⟨thenS, s2⟩, hth, hok3⟩ := bind_ok_inv hok2
      rw [matchT_eq, bind_ok] at hok3
      cases hel : canMatch s2 TokenType.Else
      · rw [hel] at hok3
        simp only [Bool.false_eq_true, if_false] at hok3
        have hst := congrArg Prod.fst (Except.ok.inj hok3)
        simp only at hst
        rw [← hst]
        show stmtNoVar (Stmt.IfStmt cond thenS none) = true
        simp only [stmtNoVar, stmtONoVar]
        rw [ihEX s cond s1 hex, ihST s1 thenS s2 hth]
        rfl
      · rw [hel] at hok3
        simp only [if_true] at hok3
        obtain ⟨⟨o, s4⟩, ho, hok4⟩ := bind_ok_inv hok3
        have hst := congrArg Prod.fst (Except.ok.inj hok4)
        simp only at hst
        rw [← hst]
        show stmtNoVar (Stmt.IfStmt cond thenS (some o)) = true
        simp only [stmtNoVar, stmtONoVar]
        rw [ihEX s cond s1 hex, ihST s1 thenS s2 hth, ihST _ o s4 ho]
        rfl
    -- expressionStatement
    · intro s st s' hok
      simp only [expressionStatement] at hok
      obtain ⟨⟨v, s1⟩, hex, hok2⟩ := bind_ok_inv hok
      obtain ⟨s2, -, hok3⟩ := bind_ok_inv hok2
      have hst := congrArg Prod.fst (Except.ok.inj hok3)
      simp only at hst
      rw [← hst]
      show stmtNoVar (Stmt.ExpressionStmt v) = true
      simp only [stmtNoVar]
      exact ihEX s v s1 hex
    -- expr
    · intro s e s' hok
      simp only [expr] at hok
      exact ihEQ s e s' hok
    -- equality
    · intro s e s' hok
      simp only [equality] at hok
      obtain ⟨⟨l, s1⟩, hcp, hok2⟩ := bind_ok_inv hok
      exact ihEQL l s1 e s' (ihCP s l s1 hcp) hok2
    -- equalityLoop
    · intro left s e s' hl hok
      simp only [equalityLoop] at hok
      rw [matchT_eq, bind_ok] at hok
      cases h1 : canMatch s TokenType.BangEqual
      · rw [h1] at hok
        simp only [Bool.false_eq_true, if_false, pure_ok] at hok
        rw [matchT_eq, bind_ok] at hok
        cases h2 : canMatch s TokenType.EqualEqual
        · rw [h2] at hok
          simp only [Bool.false_eq_true, if_false] at hok
          have he := congrArg Prod.fst (Except.ok.inj hok)
          simp only at he
          rw [← he]
          exact hl
        · rw [h2] at hok
          simp only [if_true] at hok
          obtain ⟨op, -, hok2⟩ := bind_ok_inv hok
          obtain ⟨⟨right, s3⟩, hcp, hok3⟩ := bind_ok_inv hok2
          refine ihEQL (Expr.BinaryExpr left op right) s3 e s' ?_ hok3
          simp only [exprNoVar]
          rw [hl, ihCP _ right s3 hcp]; rfl
      · rw [h1] at hok
        simp only [if_true, pure_ok, bind_ok] at hok
        obtain ⟨op, -, hok2⟩ := bind_ok_inv hok
        obtain ⟨⟨right, s3⟩, hcp, hok3⟩ := bind_ok_inv hok2
        refine ihEQL (Expr.BinaryExpr left op right) s3 e s' ?_ hok3
        simp only [exprNoVar]
        rw [hl, ihCP _ right s3 hcp]; rfl
    -- comparison
    · intro s e s' hok
      simp only [comparison] at hok
      obtain ⟨⟨l, s1⟩, htm, hok2⟩ := bind_ok_inv hok
      exact ihCPL l s1 e s' (ihTM s l s1 htm) hok2
    -- comparisonLoop
    · intro left s e s' hl hok
      simp only [comparisonLoop] at hok
      rw [matchT_eq, bind_ok] at hok
      cases h1 : canMatch s TokenType.Greater
      · rw [h1] at hok
        simp only [Bool.false_eq_true, if_false, pure_ok] at hok
        rw [matchT_eq, bind_ok] at hok
        cases h2 : canMatch s TokenType.GreaterEqual
        · rw [h2] at hok
          simp only [Bool.false_eq_true, if_false, pure_ok] at hok
          rw [matchT_eq, bind_ok] at hok
          cases h3 : canMatch s TokenType.Less
          · rw [h3] at hok
            simp only [Bool.false_eq_true, if_false, pure_ok] at hok
            rw [matchT_eq, bind_ok] at hok
            cases h4 : canMatch s TokenType.LessEqual
            · rw [h4] at hok
              simp only [Bool.false_eq_true, if_false] at hok
              have he := congrArg Prod.fst (Except.ok.inj hok)
              simp only at he
              rw [← he]
              exact hl
            · rw [h4] at hok
              simp only [if_true] at hok
              obtain ⟨op, -, hok2⟩ := bind_ok_inv hok
              obtain ⟨⟨right, s5⟩, htm, hok3⟩ := bind_ok_inv hok2
              refine ihCPL (Expr.BinaryExpr left op right) s5 e s' ?_ hok3
              simp only [exprNoVar]
              rw [hl, ihTM _ right s5 htm]; rfl
          · rw [h3] at hok
            simp only [if_true, pure_ok, bind_ok] at hok
            obtain ⟨op, -, hok2⟩ := bind_ok_inv hok
            obtain ⟨⟨right, s5⟩, htm, hok3⟩ := bind_ok_inv hok2
            refine ihCPL (Expr.BinaryExpr left op right) s5 e s' ?_ hok3
            simp only [exprNoVar]
            rw [hl, ihTM _ right s5 htm]; rfl
        · rw [h2] at hok
          simp only [if_true, pure_ok, bind_ok] at hok
          obtain ⟨op, -, hok2⟩ := bind_ok_inv hok
          obtain ⟨⟨right, s5⟩, htm, hok3⟩ := bind_ok_inv hok2
          refine ihCPL (Expr.BinaryExpr left op right) s5 e s' ?_ hok3
          simp only [exprNoVar]
          rw [hl, ihTM _ right s5 htm]; rfl
      · rw [h1] at hok
        simp only [if_true, pure_ok, bind_ok] at hok
        obtain ⟨op, -, hok2⟩ := bind_ok_inv hok
        obtain ⟨⟨right, s5⟩, htm, hok3⟩ := bind_ok_inv hok2
        refine ihCPL (Expr.BinaryExpr left op right) s5 e s' ?_ hok3
        simp only [exprNoVar]
        rw [hl, ihTM _ right s5 htm]; rfl
    -- term
    · intro s e s' hok
      simp only [term] at hok
      obtain ⟨⟨l, s1⟩, hfc, hok2⟩ := bind_ok_inv hok
      exact ihTML l s1 e s' (ihFC s l s1 hfc) hok2
    -- termLoop
    · intro left s e s' hl hok
      simp only [termLoop] at hok
      rw [matchT_eq, bind_ok] at hok
      cases h1 : canMatch s TokenType.Plus
      · rw [h1] at hok
        simp only [Bool.false_eq_true, if_false, pure_ok] at hok
        rw [matchT_eq, bind_ok] at hok
        cases h2 : canMatch s TokenType.Minus
        · rw [h2] at hok
          simp only [Bool.false_eq_true, if_false] at hok
          have he := congrArg Prod.fst (Except.ok.inj hok)
          simp only at he
          rw [← he]
          exact hl
        · rw [h2] at hok
          simp only [if_true] at hok
          obtain ⟨op, -, hok2⟩ := bind_ok_inv hok
          obtain ⟨⟨right, s3⟩, hfc, hok3⟩ := bind_ok_inv hok2
          refine ihTML (Expr.BinaryExpr left op right) s3 e s' ?_ hok3
          simp only [exprNoVar]
          rw [hl, ihFC _ right s3 hfc]; rfl
      · rw [h1] at hok
        simp only [if_true, pure_ok, bind_ok] at hok
        obtain ⟨op, -, hok2⟩ := bind_ok_inv hok
        obtain ⟨⟨right, s3⟩, hfc, hok3⟩ := bind_ok_inv hok2
        refine ihTML (Expr.BinaryExpr left op right) s3 e s' ?_ hok3
        simp only [exprNoVar]
        rw [hl, ihFC _ right s3 hfc]; rfl
    -- factor
    · intro s e s' hok
      simp only [factor] at hok
      obtain ⟨⟨l, s1⟩, hun, hok2⟩ := bind_ok_inv hok
      exact ihFCL l s1 e s' (ihUN s l s1 hun) hok2
    -- factorLoop
    · intro left s e s' hl hok
      simp only [factorLoop] at hok
      rw [matchT_eq, bind_ok] at hok
      cases h1 : canMatch s TokenType.Star
      · rw [h1] at hok
        simp only [Bool.false_eq_true, if_false, pure_ok] at hok
        rw [matchT_eq, bind_ok] at hok
        cases h2 : canMatch s TokenType.Slash
        · rw [h2] at hok
          simp only [Bool.false_eq_true, if_false] at hok
          have he := congrArg Prod.fst (Except.ok.inj hok)
          simp only at he
          rw [← he]
          exact hl
        · rw [h2] at hok
          simp only [if_true] at hok
          obtain ⟨op, -, hok2⟩ := bind_ok_inv hok
          obtain ⟨⟨right, s3⟩, hun, hok3⟩ := bind_ok_inv hok2
          refine ihFCL (Expr.BinaryExpr left op right) s3 e s' ?_ hok3
          simp only [exprNoVar]
          rw [hl, ihUN _ right s3 hun]; rfl
      · rw [h1] at hok
        simp only [if_true, pure_ok, bind_ok] at hok
        obtain ⟨op, -, hok2⟩ := bind_ok_inv hok
        obtain ⟨⟨right, s3⟩, hun, hok3⟩ := bind_ok_inv hok2
        refine ihFCL (Expr.BinaryExpr left op right) s3 e s' ?_ hok3
        simp only [exprNoVar]
        rw [hl, ihUN _ right s3 hun]; rfl
    -- unary
    · intro s e s' hok
      simp only [unary] at hok
      rw [matchT_eq, bind_ok] at hok
      cases h1 : canMatch s TokenType.Plus
      · rw [h1] at hok
        simp only [Bool.false_eq_true, if_false, pure_ok] at hok
        rw [matchT_eq, bind_ok] at hok
        cases h2 : canMatch s TokenType.Minus
        · rw [h2] at hok
          simp only [Bool.false_eq_true, if_false] at hok
          rw [matchT_eq, bind_ok] at hok
          cases h3 : canMatch s TokenType.LeftParen
          · rw [h3] at hok
            simp only [Bool.false_eq_true, if_false] at hok
            exact ihPR s e s' hok
          · rw [h3] at hok
            simp only [if_true] at hok
            obtain ⟨⟨e2, s5⟩, hex, hok2⟩ := bind_ok_inv hok
            obtain ⟨s6, -, hok3⟩ := bind_ok_inv hok2
            have he := congrArg Prod.fst (Except.ok.inj hok3)
            simp only at he
            rw [← he]
            exact ihEX _ e2 s5 hex
        · rw [h2] at hok
          simp only [if_true] at hok
          obtain ⟨op, -, hok2⟩ := bind_ok_inv hok
          obtain ⟨⟨e2, s3⟩, hun, hok3⟩ := bind_ok_inv hok2
          have he := congrArg Prod.fst (Except.ok.inj hok3)
          simp only at he
          rw [← he]
          show exprNoVar (Expr.UnaryExpr op e2) = true
          simp only [exprNoVar]
          exact ihUN _ e2 s3 hun
      · rw [h1] at hok
        simp only [if_true, pure_ok, bind_ok] at hok
        obtain ⟨op, -, hok2⟩ := bind_ok_inv hok
        obtain ⟨⟨e2, s3⟩, hun, hok3⟩ := bind_ok_inv hok2
        have he := congrArg Prod.fst (Except.ok.inj hok3)
        simp only at he
        rw [← he]
        show exprNoVar (Expr.UnaryExpr op e2) = true
        simp only [exprNoVar]
        exact ihUN _ e2 s3 hun
    -- primary
    · intro s e s' hok
      simp only [primary] at hok
      rw [matchT_eq, bind_ok] at hok
      cases h1 : canMatch s TokenType.False
      · rw [h1] at hok
        simp only [Bool.false_eq_true, if_false] at hok
        rw [matchT_eq, bind_ok] at hok
        cases h2 : canMatch s TokenType.True
        · rw [h2] at hok
          simp only [Bool.false_eq_true, if_false] at hok
          rw [matchT_eq, bind_ok] at hok
          cases h3 : canMatch s TokenType.Number
          · rw [h3] at hok
            simp only [Bool.false_eq_true, if_false, pure_ok] at hok
            rw [matchT_eq, bind_ok] at hok
            cases h4 : canMatch s TokenType.String
            · rw [h4] at hok
              simp only [Bool.false_eq_true, if_false] at hok
              rw [matchT_eq, bind_ok] at hok
              cases h5 : canMatch s TokenType.LeftParen
              · rw [h5] at hok
                simp only [Bool.false_eq_true, if_false] at hok
                obtain ⟨tk, -, habs⟩ := bind_ok_inv hok
                exact absurd habs (by simp)
              · rw [h5] at hok
                simp only [if_true] at hok
                obtain ⟨⟨e2, s6⟩, hex, hok2⟩ := bind_ok_inv hok
                rw [matchT_eq, bind_ok] at hok2
                have he := congrArg Prod.fst (Except.ok.inj hok2)
                simp only at he
                rw [← he]
                exact ihEX _ e2 s6 hex
            · rw [h4] at hok
              simp only [if_true] at hok
              obtain ⟨tk, -, hok2⟩ := bind_ok_inv hok
              have he := congrArg Prod.fst (Except.ok.inj hok2)
              simp only at he
              rw [← he]
              rfl
          · rw [h3] at hok
            simp only [if_true, pure_ok, bind_ok] at hok
            obtain ⟨tk, -, hok2⟩ := bind_ok_inv hok
            have he := congrArg Prod.fst (Except.ok.inj hok2)
            simp only at he
            rw [← he]
            rfl
        · rw [h2] at hok
          simp only [if_true] at hok
          have he := congrArg Prod.fst (Except.ok.inj hok)
          simp only at he
          rw [← he]
          rfl
      · rw [h1] at hok
        simp only [if_true] at hok
        have he := congrArg Prod.fst (Except.ok.inj hok)
        simp only at he
        rw [← he]
        rfl

/-- C10: the parser never constructs a `VarStmt` or `VariableExpr` node.
Every statement of a successful `parse` run satisfies `stmtNoVar`, and an
input placing an `Identifier` or `Let` token where an expression is
expected makes `parse` fail with a `SyntaxError`, even though the data
model defines the `VarStmt` and `VariableExpr` variants. -/
theorem c10_no_var_nodes :
    (∀ tokens stmts, parse tokens = .ok stmts →
        ∀ st ∈ stmts, stmtNoVar st = true) ∧
    parse [⟨TokenType.Identifier, "x", LitValue.null⟩,
           ⟨TokenType.Semicolon, ";", LitValue.null⟩,
           ⟨TokenType.Eof, "", LitValue.null⟩] =
      .error (.SyntaxError "Parsing Error - Unexpected token: x") ∧
    parse [⟨TokenType.Let, "let", LitValue.null⟩,
           ⟨TokenType.Identifier, "x", LitValue.null⟩,
           ⟨TokenType.Eof, "", LitValue.null⟩] =
      .error (.SyntaxError "Parsing Error - Unexpected token: let") := by
  refine ⟨?_, ?_, ?_⟩
  · intro tokens stmts hok
    unfold parse at hok
    obtain ⟨⟨l, s1⟩, hpl, hok2⟩ := bind_ok_inv hok
    have hst := Except.ok.inj hok2
    rw [← hst]
    exact (noVarAll (bigFuel tokens)).1 ⟨tokens, 0⟩ [] l s1
      (by intro st h; exact absurd h (List.not_mem_nil _)) hpl
  · rfl
  · rfl
